import Mathlib

/-!
Verification of the mini-swe-agent core loop against its specification.

This file shallowly embeds the relevant parts of the repository:

* `minisweagent/agents/default.py` — the `DefaultAgent` step engine
  (limit checks, candidate sampling with batched n-choice splitting,
  verifier-index clamping, tool-call parsing, the run loop);
* `minisweagent/verifiers/first_valid.py`, `llm.py`, `reward_model.py` —
  the verifier family (selection, fallback policies, retry logic);
* `minisweagent/environments/singularity.py` — `_check_finished`,
  the completion-marker detection that raises the `Submitted` signal.

Modelling conventions:

* Python dicts used as messages are embedded as structures holding exactly
  the fields the agent reads or writes; dict fields whose absence and
  non-expected-type cases lead to the same behaviour are collapsed into a
  single `Option` field.
* External library calls (the LLM backends behind `model.query` /
  `query_verifier_text`, `json.loads`, the regular-expression engine, and
  the model-specific `format_observation_messages` / `parse_regex_actions`
  helpers living outside the embedded modules) are modelled as oracle
  parameters supplying their outcomes.
* Python `float` values (costs, rewards, scores) are modelled as `ℚ`;
  the embedded code only ever compares and adds them.
* The reward-model verifier's thread pool writes results into per-index
  slots, so completion order does not affect the collected results; the
  embedding evaluates the per-candidate scoring jobs in index order.
* Machine integers do not overflow in any embedded code path; Python
  integers are arbitrary precision, so `ℕ`/`ℤ` are used directly.
-/

set_option maxRecDepth 4000

namespace MiniSwe

/-! ## Data model -/

/-- An action parsed from a model message: a shell command plus the optional
tool-call correlation id (`{"command": ..., "tool_call_id": ...}`). -/
structure Action where
  command : String
  toolCallId : Option String := none
deriving DecidableEq, Repr

/-- Decoded tool-call `arguments`: either not a JSON object, or an object
embedded as an association list (argument values are modelled as strings,
which is the shape of the `command` argument). -/
inductive ArgsVal where
  | notDict
  | dict (entries : List (String × String))
deriving DecidableEq, Repr

instance {ε α : Type} [DecidableEq ε] [DecidableEq α] : DecidableEq (Except ε α) := fun x y =>
  match x, y with
  | .error a, .error b =>
      if h : a = b then isTrue (by rw [h])
      else isFalse (fun hh => h (by injection hh))
  | .ok a, .ok b =>
      if h : a = b then isTrue (by rw [h])
      else isFalse (fun hh => h (by injection hh))
  | .error _, .ok _ => isFalse (fun hh => Except.noConfusion hh)
  | .ok _, .error _ => isFalse (fun hh => Except.noConfusion hh)

/-- One entry of a `tool_calls` list, as read by
`DefaultAgent._parse_tool_call_actions`: either not a dict at all, or a
dict carrying `function.name`, `function.arguments` and `id`.  The
`arguments` field holds the outcome of decoding: `Except.error e` models a
string on which `json.loads` raises `e`; `Except.ok v` models either a
successfully parsed string or an already-decoded mapping (the source
treats both identically after the `json.loads` line). -/
inductive ToolCallEntry where
  | notDict
  | entry (functionName : Option String) (arguments : Except String ArgsVal)
      (id : Option String)
deriving DecidableEq, Repr

/-- The `choice["message"]` dict inside a batched n-choice response, as read
by `_make_choice_response` / `_parse_actions_from_choice`: either not a
dict (the source then reports "Malformed choice message."), or a dict with
optional `role`, `content` and `tool_calls` fields.  A choice that is not a
dict, or has no `"message"` key, yields the empty dict `{}`, embedded as
`.fields none none none`. -/
inductive ChoiceMsg where
  | notDict
  | fields (role : Option String) (content : Option String)
      (toolCalls : Option (List ToolCallEntry))
deriving DecidableEq, Repr

/-- The candidate-info dict built by `DefaultAgent._build_candidate_info`. -/
structure CandidateInfo where
  index : ℕ
  content : String
  action : Option String
  actions : List Action
  nActions : ℕ
  parseError : Option String := none
deriving DecidableEq, Repr

/-- The verifier metadata dict attached by `DefaultAgent.query` to the
committed message's `extra["verifier"]`. -/
structure VerifierMeta where
  enabled : Bool
  vtype : String
  selectedIndex : ℤ
  selectionIndexBase : ℤ
  candidates : List CandidateInfo
deriving DecidableEq, Repr

/-- The `extra` side-channel of a message, restricted to the fields the
embedded code reads or writes.  `responseChoices` models
`extra["response"]["choices"]` as seen by `_split_n_response`: `some cs`
when `extra["response"]` is a dict whose `"choices"` value is a list, with
each choice collapsed to its derived `choice.get("message", {})` value;
`none` covers a missing/non-dict `response` and a missing/non-list
`choices`, which the source treats identically (it returns `[]`). -/
structure Extra where
  actions : List Action := []
  cost : ℚ := 0
  responseChoices : Option (List ChoiceMsg) := none
  choiceIndex : Option ℕ := none
  candidateParseError : Option String := none
  exitStatus : Option String := none
  submission : Option String := none
  verifier : Option VerifierMeta := none
deriving DecidableEq, Repr

/-- One conversation message (`{"role": ..., "content": ..., "tool_calls":
..., "extra": ...}`). -/
structure Msg where
  role : String := ""
  content : String := ""
  toolCalls : Option (List ToolCallEntry) := none
  extra : Extra := {}
deriving DecidableEq, Repr

/-- The result dict of `SingularityEnvironment.execute`. -/
structure ExecOut where
  output : String
  returncode : ℤ
  exceptionInfo : String := ""
deriving DecidableEq, Repr

/-- The `InterruptAgentFlow` exception hierarchy of
`minisweagent/exceptions.py`, plus a case for generic (non-interrupt)
exceptions. -/
inductive AgentExc where
  | limitsExceeded (m : Msg)
  | submitted (m : Msg)
  | formatError (msgs : List Msg)
  | userInterruption (msgs : List Msg)
  | generic (name msg : String)
deriving DecidableEq, Repr

/-- Whether an exception is an `InterruptAgentFlow` (matched by the
`except InterruptAgentFlow` clauses in the source). -/
def AgentExc.isInterrupt : AgentExc → Bool
  | .generic _ _ => false
  | _ => true

/-! ## Python string helpers

`SingularityEnvironment._check_finished` uses `str.lstrip`,
`str.splitlines(keepends=True)` and `str.strip`; these are embedded below
on `List Char` and wrapped for `String`. -/

/-- Characters stripped by Python's `str.strip()` / `str.lstrip()` with no
argument (the ASCII whitespace characters relevant to shell output). -/
def pySpace (c : Char) : Bool :=
  c = ' ' || c = '\t' || c = '\n' || c = '\x0d' || c = '\x0b' || c = '\x0c'

/-- Single characters that terminate a line for Python's
`str.splitlines` (besides the two-character `"\r\n"` sequence). -/
def pyLineBreak (c : Char) : Bool :=
  c = '\n' || c = '\x0d' || c = '\x0b' || c = '\x0c' ||
  c = '\x1c' || c = '\x1d' || c = '\x1e' || c = '\x85' ||
  c = '\u2028' || c = '\u2029'

def lstripChars (cs : List Char) : List Char := cs.dropWhile pySpace

def rstripChars (cs : List Char) : List Char :=
  ((cs.reverse).dropWhile pySpace).reverse

def stripChars (cs : List Char) : List Char := rstripChars (lstripChars cs)

/-- `str.splitlines(keepends=True)` on a character list: `acc` holds the
(reversed) characters of the line being accumulated. -/
def splitLinesAux : List Char → List Char → List (List Char)
  | [], acc => if acc.isEmpty then [] else [acc.reverse]
  | '\x0d' :: '\n' :: rest, acc =>
      (acc.reverse ++ ['\x0d', '\n']) :: splitLinesAux rest []
  | c :: rest, acc =>
      if pyLineBreak c then (acc.reverse ++ [c]) :: splitLinesAux rest []
      else splitLinesAux rest (c :: acc)

def splitLinesKeepends (cs : List Char) : List (List Char) := splitLinesAux cs []

/-- `"".join(lines)`. -/
def joinLines (lines : List (List Char)) : List Char := lines.flatten

/-! ## `SingularityEnvironment._check_finished` -/

/-- The completion marker recognised by the environment. -/
def completionMarker : String := "COMPLETE_TASK_AND_SUBMIT_FINAL_OUTPUT"

/-- The exit message raised with the `Submitted` signal by
`_check_finished`. -/
def submittedMsg (submission : String) : Msg :=
  { role := "exit", content := submission,
    extra := { exitStatus := some "Submitted", submission := some submission } }

/-- `SingularityEnvironment._check_finished`: returns `some m` when the
source raises `Submitted(m)`, `none` otherwise. -/
def checkFinished (output : String) (returncode : ℤ) : Option Msg :=
  let lines := splitLinesKeepends (lstripChars output.toList)
  match lines with
  | [] => none
  | l0 :: restLines =>
      if stripChars l0 = completionMarker.toList ∧ returncode = 0 then
        some (submittedMsg (String.mk (joinLines restLines)))
      else none

/-! ## `DefaultAgent._parse_tool_call_actions` -/

/-- Python truthiness of `tool_call.get("id")`: `if tool_call_id:` only
keeps a non-`None`, non-empty id. -/
def truthyId : Option String → Option String
  | some s => if s = "" then none else some s
  | none => none

/-- Dict lookup on the decoded-arguments association list. -/
def dictGet (k : String) (entries : List (String × String)) : Option String :=
  (entries.find? (fun p => p.1 = k)).map (·.2)

/-- How `function_name` is rendered into the "Unknown tool" error message
(Python interpolates `None` for a missing name). -/
def fnameText : Option String → String
  | some s => s
  | none => "None"

/-- The body of the `for tool_call in tool_calls` loop of
`_parse_tool_call_actions`: one entry either yields an action or a
descriptive error string. -/
def processToolCall : ToolCallEntry → Except String Action
  | .notDict => .error "Malformed tool call object."
  | .entry functionName arguments id =>
      match arguments with
      | .error e => .error ("Error parsing tool call arguments: " ++ e)
      | .ok v =>
          if functionName ≠ some "bash" then
            .error ("Unknown tool '" ++ fnameText functionName ++ "'.")
          else
            match v with
            | .notDict => .error "Missing 'command' argument in bash tool call."
            | .dict entries =>
                match dictGet "command" entries with
                | none => .error "Missing 'command' argument in bash tool call."
                | some cmd => .ok { command := cmd, toolCallId := truthyId id }

/-- `DefaultAgent._parse_tool_call_actions` before the final `"; ".join`:
the accumulated `actions` and `errors` lists, in entry order. -/
def parseToolCallsCore : List ToolCallEntry → List Action × List String
  | [] => ([], [])
  | tc :: rest =>
      let r := parseToolCallsCore rest
      match processToolCall tc with
      | .ok a => (a :: r.1, r.2)
      | .error e => (r.1, e :: r.2)

/-- `DefaultAgent._parse_tool_call_actions`: returns the action list and
`"; ".join(errors) if errors else None`. -/
def parseToolCallActions (toolCalls : List ToolCallEntry) :
    List Action × Option String :=
  let r := parseToolCallsCore toolCalls
  (r.1, if r.2.isEmpty then none else some (String.intercalate "; " r.2))

/-! ## `DefaultAgent._parse_actions_from_choice`, `_make_choice_response`,
`_split_n_response`, `_build_candidate_info` -/

/-- The model-config-dependent free-text branch of
`_parse_actions_from_choice`: whether the model config has a non-empty
`action_regex`, and the outcome of the external `parse_regex_actions`
helper on a content string (`.error` carries the feedback text that
`_format_interrupt_message` extracts from the raised `FormatError`). -/
structure ContentParse where
  actionRegexSet : Bool
  parseContent : String → Except String (List Action)

/-- `DefaultAgent._parse_actions_from_choice`. -/
def parseActionsFromChoice (P : ContentParse) : ChoiceMsg → List Action × Option String
  | .notDict => ([], some "Malformed choice message.")
  | .fields _ content toolCalls =>
      match toolCalls with
      | some (tc :: tcs) => parseToolCallActions (tc :: tcs)
      | _ =>
          match content with
          | some s =>
              if P.actionRegexSet then
                match P.parseContent s with
                | .ok as => (as, none)
                | .error e => ([], some e)
              else ([], none)
          | none => ([], none)

/-- `if parse_error:` / `if parse_error := ...:` — only a truthy (non-empty)
error string is recorded. -/
def truthyOr (new old : Option String) : Option String :=
  match new with
  | some e => if e = "" then old else some e
  | none => old

/-- `DefaultAgent._make_choice_response`: a deep copy of the batched base
response, overwritten with the choice's own `role`/`content`/`tool_calls`
when present, with its own parsed actions — except that choice 0 inherits
the base response's already-parsed actions when its own message parses to
no actions. -/
def makeChoiceResponse (P : ContentParse) (baseResponse : Msg)
    (choiceMessage : ChoiceMsg) (choiceIndex : ℕ) : Msg :=
  let response := baseResponse
  let response :=
    match choiceMessage with
    | .notDict => response
    | .fields r c t =>
        let response := match r with
          | some rv => { response with role := rv }
          | none => response
        let response := match c with
          | some cv => { response with content := cv }
          | none => response
        match t with
        | some tv => { response with toolCalls := some tv }
        | none => response
  let parsed := parseActionsFromChoice P choiceMessage
  let parsedActions :=
    if parsed.1 = [] ∧ choiceIndex = 0 then baseResponse.extra.actions else parsed.1
  { response with
    extra := { response.extra with
      actions := parsedActions,
      choiceIndex := some choiceIndex,
      candidateParseError := truthyOr parsed.2 response.extra.candidateParseError } }

/-- `DefaultAgent._split_n_response`: splits a batched n-choice response
into per-choice synthetic responses, or returns `[]` when the raw response
shape is missing/malformed or the choice list is empty. -/
def splitNResponse (P : ContentParse) (response : Msg) (numCandidates : ℕ) : List Msg :=
  match response.extra.responseChoices with
  | none => []
  | some choices =>
      if choices.isEmpty then []
      else (choices.take numCandidates).mapIdx
        (fun idx cm => makeChoiceResponse P response cm idx)

/-- `DefaultAgent._build_candidate_info` (the external `get_content_string`
is modelled as the message's `content` field, its value on plain-text
messages). -/
def buildCandidateInfo (response : Msg) (index : ℕ) : CandidateInfo :=
  let actions := response.extra.actions
  { index := index,
    content := response.content,
    action := actions.head?.map (·.command),
    actions := actions,
    nActions := actions.length,
    parseError := truthyOr response.extra.candidateParseError none }

/-! ## Verifiers -/

/-- Python truthiness of `candidate.get("action")` (a string or `None`). -/
def truthyStr : Option String → Bool
  | some s => s ≠ ""
  | none => false

/-- `FirstValidVerifier.select`: the index field of the first candidate
with a truthy action, else 0. -/
def firstValidSelect (candidates : List CandidateInfo) : ℕ :=
  match candidates.find? (fun c => truthyStr c.action) with
  | some c => c.index
  | none => 0

/-- `LLMVerifier._fallback_index` (also the fallback tail of
`RewardModelVerifier._select_best`): under the `"first_valid"` policy, the
index field of the first candidate with a truthy action; otherwise 0. -/
def fallbackIndex (fallback : String) (candidates : List CandidateInfo) : ℕ :=
  if fallback = "first_valid" then
    match candidates.find? (fun c => truthyStr c.action) with
    | some c => c.index
    | none => 0
  else 0

/-- The index-selection logic of `LLMVerifier.select`: `matches` is the
list of integer conversions of `re.findall(selection_regex, content)`
(tuple matches reduced to their first group, as the source does). -/
def llmSelectIndex (selectionIndexBase : ℤ) (fallback : String)
    (ms : List ℕ) (candidates : List CandidateInfo) : ℤ :=
  match ms.getLast? with
  | none => (fallbackIndex fallback candidates : ℤ)
  | some raw =>
      let i : ℤ := (raw : ℤ) - selectionIndexBase
      if 0 ≤ i ∧ i < (candidates.length : ℤ) then i
      else (fallbackIndex fallback candidates : ℤ)

/-- The index-addressed assignment loop shared by `_parse_scores` (with
`base = selection_index_base`) and `_parse_checklist_item_scores` (with
`base = 1`): each successfully converted `(raw_index, score)` pair from
`re.finditer` is written into the slot `raw_index - base` when that slot
exists. -/
def assignScores (base : ℤ) : List (ℕ × ℚ) → List (Option ℚ) → List (Option ℚ)
  | [], scores => scores
  | (rawIdx, score) :: rest, scores =>
      let idx : ℤ := (rawIdx : ℤ) - base
      let scores :=
        if 0 ≤ idx ∧ idx < (scores.length : ℤ) then scores.set idx.toNat (some score)
        else scores
      assignScores base rest scores

/-- `LLMVerifier._parse_scores`. -/
def parseScores (base : ℤ) (n : ℕ) (pairs : List (ℕ × ℚ)) : List (Option ℚ) :=
  assignScores base pairs (List.replicate n none)

/-- `_parse_progress_score` (same code in `llm.py` and `reward_model.py`):
takes the last regex match; each element of `matches` carries the outcome
of its `float(...)` conversion. -/
def parseProgressScore (ms : List (Option ℚ)) : Option ℚ :=
  match ms.getLast? with
  | none => none
  | some v => v

/-- `_parse_checklist_item_scores` (same code in `llm.py` and
`reward_model.py`); `n_items ≤ 0` yields `[]`, which on `ℕ` coincides with
`List.replicate 0 _`. -/
def parseChecklistItemScores (nItems : ℕ) (pairs : List (ℕ × ℚ)) : List (Option ℚ) :=
  assignScores 1 pairs (List.replicate nItems none)

/-- The regex-derived inputs of `LLMVerifier.select` extracted from the
judge model's response text by the external `re` engine:
`selectionMatches` are the integer conversions of the selection-regex
matches; the other fields feed the best-effort auxiliary score parsing. -/
structure LLMJudgeOutcome where
  selectionMatches : List ℕ
  scorePairs : List (ℕ × ℚ)
  progressMatches : List (Option ℚ)
  checklistPairs : List (ℕ × ℚ)
deriving DecidableEq, Repr

/-- The metadata dict returned by `LLMVerifier.select` (fields the claims
mention). -/
structure LLMVerifierOutput where
  vtype : String
  rawIndex : Option ℕ
  parsedIndex : ℤ
  scores : List (Option ℚ)
  progressScore : Option ℚ
  checklistItemScores : List (Option ℚ)
deriving DecidableEq, Repr

/-- `LLMVerifier.select` after the judge-model query: index selection plus
the opportunistic auxiliary score extraction. -/
def llmSelect (selectionIndexBase : ℤ) (fallback : String)
    (candidates : List CandidateInfo) (nChecklistItems : ℕ)
    (j : LLMJudgeOutcome) : ℤ × LLMVerifierOutput :=
  let selectedIndex := llmSelectIndex selectionIndexBase fallback j.selectionMatches candidates
  (selectedIndex,
   { vtype := "llm",
     rawIndex := j.selectionMatches.getLast?,
     parsedIndex := selectedIndex,
     scores := parseScores selectionIndexBase candidates.length j.scorePairs,
     progressScore := parseProgressScore j.progressMatches,
     checklistItemScores := parseChecklistItemScores nChecklistItems j.checklistPairs })

/-- The `for idx, reward in enumerate(rewards)` scan of
`RewardModelVerifier._select_best`: `k` is the index of the next element,
`best` the running `(best_index, best_value)` pair (updated only on a
strictly greater reward). -/
def selectScan (k : ℕ) (best : Option (ℕ × ℚ)) : List (Option ℚ) → Option (ℕ × ℚ)
  | [] => best
  | none :: rest => selectScan (k + 1) best rest
  | some r :: rest =>
      let best' :=
        match best with
        | none => some (k, r)
        | some (bi, bv) => if bv < r then some (k, r) else some (bi, bv)
      selectScan (k + 1) best' rest

/-- `RewardModelVerifier._select_best`. -/
def selectBest (fallback : String) (rewards : List (Option ℚ))
    (candidates : List CandidateInfo) : ℕ :=
  match selectScan 0 none rewards with
  | some (bi, _) => bi
  | none => fallbackIndex fallback candidates

/-- The per-attempt outcome of one reward-model scoring query: the
`query_verifier_text` call plus the reward/score parsing on its text
(`.error e` in the oracle models the attempt raising exception `e`). -/
structure ScoreOutcome where
  reward : Option ℚ
  progressScore : Option ℚ
  checklistItemScores : List (Option ℚ)
  content : String
  cost : ℚ
deriving DecidableEq, Repr

/-- The `for attempt in range(3)` retry loop of `_score_candidate` inside
`RewardModelVerifier.select`: `attempt` is the next attempt number,
`remaining` the attempts left, `lastExc` the last caught exception.  When
all attempts fail, `raise last_exc or RuntimeError(...)` re-raises the
last exception. -/
def scoreCandidateGo (oracle : ℕ → Except String ScoreOutcome) :
    ℕ → ℕ → Option String → Except String ScoreOutcome
  | _, 0, lastExc => .error (lastExc.getD "reward model query failed")
  | attempt, remaining + 1, _ =>
      match oracle attempt with
      | .ok r => .ok r
      | .error e => scoreCandidateGo oracle (attempt + 1) remaining (some e)

/-- `_score_candidate` for one candidate: up to 3 attempts. -/
def scoreCandidate (oracle : ℕ → Except String ScoreOutcome) :
    Except String ScoreOutcome :=
  scoreCandidateGo oracle 0 3 none

/-- The fan-out/fan-in of `RewardModelVerifier.select`: one scoring job per
candidate, results collected into index-addressed slots; a failing job's
exception is re-raised by `future.result()`.  The thread pool's completion
order does not affect the collected slots, so the jobs are evaluated in
index order (`i` is the position of the next candidate). -/
def collectScores (oracle : ℕ → ℕ → Except String ScoreOutcome) :
    ℕ → ℕ → Except String (List ScoreOutcome)
  | _, 0 => .ok []
  | i, n + 1 =>
      match scoreCandidate (oracle i) with
      | .error e => .error e
      | .ok r =>
          match collectScores oracle (i + 1) n with
          | .error e => .error e
          | .ok rs => .ok (r :: rs)

/-- The metadata dict returned by `RewardModelVerifier.select`. -/
structure RewardVerifierOutput where
  vtype : String
  rewards : List (Option ℚ)
  candidateProgressScores : List (Option ℚ)
  candidateChecklistItemScores : List (List (Option ℚ))
  rawOutputs : List String
  responseCosts : List ℚ
deriving DecidableEq, Repr

/-- `RewardModelVerifier.select`: scores every candidate (with the 3-try
retry), then picks `_select_best` over the parsed rewards; any scoring job
that exhausts its retries aborts the whole selection with its exception. -/
def rewardSelect (fallback : String) (oracle : ℕ → ℕ → Except String ScoreOutcome)
    (candidates : List CandidateInfo) : Except String (ℕ × RewardVerifierOutput) :=
  match collectScores oracle 0 candidates.length with
  | .error e => .error e
  | .ok outs =>
      let rewards := outs.map (·.reward)
      .ok (selectBest fallback rewards candidates,
        { vtype := "reward_model",
          rewards := rewards,
          candidateProgressScores := outs.map (·.progressScore),
          candidateChecklistItemScores := outs.map (·.checklistItemScores),
          rawOutputs := outs.map (·.content),
          responseCosts := outs.map (·.cost) })

/-! ## `DefaultAgent` — step engine and run loop -/

/-- The agent configuration fields the embedded code reads
(`AgentConfig`, `CandidateSamplingConfig`, `VerifierConfig`). -/
structure AgentCfg where
  stepLimit : ℤ := 0
  costLimit : ℚ := 3
  numCandidates : ℤ := 1
  useN : Bool := false
  verifierEnabled : Bool := false
  verifierType : String := "first_valid"
  selectionIndexBase : ℤ := 1
  fallback : String := "first_candidate"
  addFormatErrorToConversation : Bool := true
deriving DecidableEq, Repr

/-- `max(1, sampling_config.num_candidates)`. -/
def numC (cfg : AgentCfg) : ℕ := (max 1 cfg.numCandidates).toNat

/-- The mutable agent run state (`self.messages`, `self.cost`,
`self.n_calls`, `self.step_count`). -/
structure AgentState where
  messages : List Msg := []
  cost : ℚ := 0
  nCalls : ℕ := 0
  stepCount : ℕ := 0
deriving DecidableEq, Repr

/-- The condition of `DefaultAgent._check_limits`:
`0 < self.config.step_limit <= self.step_count or
 0 < self.config.cost_limit <= self.cost`. -/
def limitsBreached (cfg : AgentCfg) (st : AgentState) : Bool :=
  (decide (0 < cfg.stepLimit) && decide (cfg.stepLimit ≤ (st.stepCount : ℤ))) ||
  (decide (0 < cfg.costLimit) && decide (cfg.costLimit ≤ st.cost))

/-- The exit message carried by the `LimitsExceeded` signal. -/
def limitsExitMsg : Msg :=
  { role := "exit", content := "LimitsExceeded",
    extra := { exitStatus := some "LimitsExceeded", submission := some "" } }

/-- The acting model as an oracle: `query nArg k` is the outcome of the
`k`-th `model.query` call of the run (`k` = the value of `n_calls` when
the call is issued), with `nArg = some n` for the batched
`_query_once(n=num_candidates)` call; `formatObservations` stands for the
model-specific `format_observation_messages`. -/
structure ModelOracle where
  query : Option ℕ → ℕ → Except AgentExc Msg
  formatObservations : Msg → List ExecOut → List Msg

/-- The environment as an oracle (`env.execute`); `.error (.submitted m)`
models the `Submitted` signal raised by `_check_finished`. -/
structure EnvOracle where
  execute : Action → Except AgentExc ExecOut

/-- `DefaultAgent._query_once`: check limits, count the call, query the
model, accumulate the reported cost.  The call counter is incremented
before the model query, so a query that raises leaves it incremented; the
limit check raises before the increment. -/
def queryOnce (cfg : AgentCfg) (M : ModelOracle) (nArg : Option ℕ)
    (st : AgentState) : Except AgentExc Msg × AgentState :=
  if limitsBreached cfg st then (.error (.limitsExceeded limitsExitMsg), st)
  else
    let st1 := { st with nCalls := st.nCalls + 1 }
    match M.query nArg st.nCalls with
    | .error e => (.error e, st1)
    | .ok m => (.ok m, { st1 with cost := st1.cost + m.extra.cost })

/-- The `while len(responses) < num_candidates` top-up loop of
`_sample_candidates`; `fuel` bounds the iterations (`numC cfg` suffices,
as each iteration appends one response). -/
def sampleLoop (cfg : AgentCfg) (M : ModelOracle) :
    ℕ → List Msg → AgentState → Except AgentExc (List Msg) × AgentState
  | 0, responses, st => (.ok responses, st)
  | fuel + 1, responses, st =>
      if responses.length < numC cfg then
        match queryOnce cfg M none st with
        | (.error e, st') => (.error e, st')
        | (.ok m, st') => sampleLoop cfg M fuel (responses ++ [m]) st'
      else (.ok responses, st)

/-- `DefaultAgent._sample_candidates`.  In the batched branch an
`InterruptAgentFlow` from the model query is re-raised; any other
exception falls back to `responses = []` with `batched_response` left
unset (the pure `_split_n_response` models the split itself, which
reports malformed shapes by returning `[]`). -/
def sampleResponses (cfg : AgentCfg) (M : ModelOracle) (P : ContentParse)
    (st : AgentState) : Except AgentExc (List Msg) × AgentState :=
  if numC cfg = 1 then
    match queryOnce cfg M none st with
    | (.error e, st1) => (.error e, st1)
    | (.ok m, st1) => (.ok [m], st1)
  else if cfg.useN then
    match queryOnce cfg M (some (numC cfg)) st with
    | (.error e, st1) =>
        if e.isInterrupt then (.error e, st1)
        else sampleLoop cfg M (numC cfg) [] st1
    | (.ok batchedResponse, st1) =>
        let responses := splitNResponse P batchedResponse (numC cfg)
        sampleLoop cfg M (numC cfg)
          (if responses.isEmpty then [batchedResponse] else responses) st1
  else sampleLoop cfg M (numC cfg) [] st

/-- The final candidate-info construction of `_sample_candidates`. -/
def sampleCandidates (cfg : AgentCfg) (M : ModelOracle) (P : ContentParse)
    (st : AgentState) :
    Except AgentExc (List Msg × List CandidateInfo) × AgentState :=
  match sampleResponses cfg M P st with
  | (.error e, st') => (.error e, st')
  | (.ok responses, st') =>
      (.ok (responses, responses.mapIdx (fun i m => buildCandidateInfo m i)), st')

/-- `max(0, min(selected_index, len(responses) - 1))`. -/
def clampIndex (i : ℤ) (n : ℕ) : ℤ := max 0 (min i ((n : ℤ) - 1))

/-- `DefaultAgent.query`: limit check, sampling, verifier selection with
defense-in-depth clamping, metadata attachment, and committing the
selected response to the conversation.  The verifier's `select` is the
oracle `vsel` (its raw returned index as a function of the candidate
infos). -/
def agentQuery (cfg : AgentCfg) (M : ModelOracle) (P : ContentParse)
    (vsel : List CandidateInfo → ℤ) (st : AgentState) :
    Except AgentExc Msg × AgentState :=
  if limitsBreached cfg st then (.error (.limitsExceeded limitsExitMsg), st)
  else
    match sampleCandidates cfg M P st with
    | (.error e, st1) => (.error e, st1)
    | (.ok (responses, infos), st1) =>
        let (selectedIndex, meta) :=
          if cfg.verifierEnabled then
            let clamped := clampIndex (vsel infos) responses.length
            (clamped,
             ({ enabled := true, vtype := cfg.verifierType,
                selectedIndex := clamped,
                selectionIndexBase := cfg.selectionIndexBase,
                candidates := infos } : VerifierMeta))
          else
            (0,
             { enabled := false, vtype := "none", selectedIndex := 0,
               selectionIndexBase := cfg.selectionIndexBase,
               candidates := infos })
        let msg := responses.getD selectedIndex.toNat {}
        let msg := { msg with extra := { msg.extra with verifier := some meta } }
        (.ok msg, { st1 with messages := st1.messages ++ [msg] })

/-- The list comprehension
`[self.env.execute(action) for action in ...]`: outputs in action order,
the first environment exception propagating. -/
def execAll (E : EnvOracle) : List Action → Except AgentExc (List ExecOut)
  | [] => .ok []
  | a :: rest =>
      match E.execute a with
      | .error e => .error e
      | .ok o =>
          match execAll E rest with
          | .error e => .error e
          | .ok os => .ok (o :: os)

/-- `DefaultAgent.execute_actions`. -/
def executeActions (M : ModelOracle) (E : EnvOracle) (msg : Msg)
    (st : AgentState) : Except AgentExc (List Msg) × AgentState :=
  match execAll E msg.extra.actions with
  | .error e => (.error e, st)
  | .ok outs =>
      let obs := M.formatObservations msg outs
      (.ok obs, { st with messages := st.messages ++ obs })

/-- `DefaultAgent.step`: query, execute, then count one executed step. -/
def agentStep (cfg : AgentCfg) (M : ModelOracle) (E : EnvOracle)
    (P : ContentParse) (vsel : List CandidateInfo → ℤ) (st : AgentState) :
    Except AgentExc (List Msg) × AgentState :=
  match agentQuery cfg M P vsel st with
  | (.error e, st1) => (.error e, st1)
  | (.ok msg, st1) =>
      match executeActions M E msg st1 with
      | (.error e, st2) => (.error e, st2)
      | (.ok obs, st2) => (.ok obs, { st2 with stepCount := st2.stepCount + 1 })

/-- The messages an `InterruptAgentFlow` exception carries
(`e.messages`). -/
def AgentExc.messages : AgentExc → List Msg
  | .limitsExceeded m => [m]
  | .submitted m => [m]
  | .formatError ms => ms
  | .userInterruption ms => ms
  | .generic _ _ => []

/-- `self.messages and self.messages[-1].get("role") == "exit"`. -/
def lastRoleIsExit (st : AgentState) : Bool :=
  match st.messages.getLast? with
  | some m => m.role = "exit"
  | none => false

/-- `self.messages[-1].get("extra", {}) if self.messages else {}`. -/
def runResultOf (st : AgentState) : Extra := (st.messages.getLast?.getD {}).extra

/-- The exit message appended by `handle_uncaught_exception` (its
`exception_str`/`traceback` fields are outside the embedded `Extra`). -/
def uncaughtExitMsg (name s : String) : Msg :=
  { role := "exit", content := s,
    extra := { exitStatus := some name, submission := some "" } }

/-- The outcome of `DefaultAgent.run`: normal return of the last message's
extra dict, a re-raised generic exception, or loop fuel exhausted (the
source loop is unbounded). -/
inductive RunResult where
  | done (result : Extra) (st : AgentState)
  | raised (name : String) (st : AgentState)
  | fuelOut (st : AgentState)
deriving DecidableEq, Repr

/-- The `while True` loop of `DefaultAgent.run`: step, handle
`InterruptAgentFlow` by appending its messages (except a `FormatError`
when `add_format_error_to_conversation` is false, where `continue` also
skips the exit check), record-and-re-raise anything else, and stop when
the last message's role is `"exit"`. -/
def runLoop (cfg : AgentCfg) (M : ModelOracle) (E : EnvOracle)
    (P : ContentParse) (vsel : List CandidateInfo → ℤ) :
    ℕ → AgentState → RunResult
  | 0, st => .fuelOut st
  | fuel + 1, st =>
      match agentStep cfg M E P vsel st with
      | (.ok _, st1) =>
          if lastRoleIsExit st1 then .done (runResultOf st1) st1
          else runLoop cfg M E P vsel fuel st1
      | (.error (.generic name s), st1) =>
          .raised name { st1 with messages := st1.messages ++ [uncaughtExitMsg name s] }
      | (.error (.formatError msgs), st1) =>
          if cfg.addFormatErrorToConversation then
            let st2 := { st1 with messages := st1.messages ++ msgs }
            if lastRoleIsExit st2 then .done (runResultOf st2) st2
            else runLoop cfg M E P vsel fuel st2
          else runLoop cfg M E P vsel fuel st1
      | (.error e, st1) =>
          let st2 := { st1 with messages := st1.messages ++ e.messages }
          if lastRoleIsExit st2 then .done (runResultOf st2) st2
          else runLoop cfg M E P vsel fuel st2

/-- `DefaultAgent.run`: reset the state, seed the conversation with the
rendered system and instance messages, and loop. -/
def runAgent (cfg : AgentCfg) (M : ModelOracle) (E : EnvOracle)
    (P : ContentParse) (vsel : List CandidateInfo → ℤ)
    (systemMsg userMsg : Msg) (fuel : ℕ) : RunResult :=
  runLoop cfg M E P vsel fuel
    { messages := [systemMsg, userMsg], cost := 0, nCalls := 0, stepCount := 0 }

/-! ## Specification-side definitions

These follow the spec's wording and are compared against the embedded code
in the theorems below. -/

/-- The position of the first candidate (in list order) whose action is
non-empty — the spec's description of the `"first_valid"` policy. -/
def specFirstValidPos : List CandidateInfo → Option ℕ
  | [] => none
  | c :: cs =>
      if truthyStr c.action then some 0
      else (specFirstValidPos cs).map (· + 1)

/-! ## Concrete fixtures used by the witness theorems -/

/-- A model config with no `action_regex` (tool-call-only model). -/
def noParse : ContentParse :=
  { actionRegexSet := false, parseContent := fun _ => .ok [] }

/-- An assistant message proposing a single shell command. -/
def echoMsg (cmd : String) : Msg :=
  { role := "assistant", content := cmd,
    extra := { actions := [{ command := cmd }] } }

/-- A model oracle answering every query with the same message and
formatting observations by concatenating the outputs. -/
def constModel (m : Msg) : ModelOracle :=
  { query := fun _ _ => .ok m,
    formatObservations := fun _ outs =>
      [{ role := "user", content := String.join (outs.map (·.output)) }] }

/-- An environment oracle echoing the command back as its output. -/
def echoEnv : EnvOracle :=
  { execute := fun a => .ok { output := a.command, returncode := 0 } }

/-- A batched-sampling config: two candidates via one n-choice call, with
both limits disabled. -/
def batchCfg : AgentCfg :=
  { numCandidates := 2, useN := true, costLimit := 0 }

/-- A model oracle whose batched call raises `e` and whose independent
calls return `m`. -/
def batchFailModel (e : AgentExc) (m : Msg) : ModelOracle :=
  { query := fun nArg _ =>
      match nArg with
      | some _ => .error e
      | none => .ok m,
    formatObservations := fun _ _ => [] }

/-- A model oracle whose batched call returns `br` and whose independent
calls return `m`. -/
def batchOkModel (br m : Msg) : ModelOracle :=
  { query := fun nArg _ =>
      match nArg with
      | some _ => .ok br
      | none => .ok m,
    formatObservations := fun _ _ => [] }

/-- The two-command submission scenario's second model action. -/
def submitCommand : String :=
  "echo COMPLETE_TASK_AND_SUBMIT_FINAL_OUTPUT\necho done"

/-- The shell outputs of the scenario's commands. -/
def scenarioOutput (cmd : String) : String × ℤ :=
  if cmd = "echo hello" then ("hello\n", 0)
  else if cmd = submitCommand then
    ("COMPLETE_TASK_AND_SUBMIT_FINAL_OUTPUT\ndone\n", 0)
  else ("", 1)

/-- The scenario environment: runs `_check_finished` on each command's
output, raising `Submitted` on the completion marker. -/
def scenarioEnv : EnvOracle :=
  { execute := fun a =>
      match checkFinished (scenarioOutput a.command).1 (scenarioOutput a.command).2 with
      | some m => .error (.submitted m)
      | none => .ok { output := (scenarioOutput a.command).1,
                      returncode := (scenarioOutput a.command).2 } }

/-- The scenario acting model: first `"echo hello"`, then the submit
command. -/
def scenarioModel : ModelOracle :=
  { query := fun _ k =>
      if k = 0 then .ok (echoMsg "echo hello") else .ok (echoMsg submitCommand),
    formatObservations := fun _ outs =>
      [{ role := "user", content := String.join (outs.map (·.output)) }] }

/-- The scenario run (default config, verifier disabled, three loop
iterations of fuel). -/
def scenarioRun : RunResult :=
  runAgent {} scenarioModel scenarioEnv noParse (fun _ => 0)
    { role := "system", content := "sys" } { role := "user", content := "task" } 3

/-! ## Helper lemmas -/

lemma numC_pos (cfg : AgentCfg) : 1 ≤ numC cfg := by
  have h : (1 : ℤ) ≤ max 1 cfg.numCandidates := le_max_left _ _
  unfold numC
  omega

lemma queryOnce_stepCount (cfg : AgentCfg) (M : ModelOracle) (nArg : Option ℕ)
    (st : AgentState) : ((queryOnce cfg M nArg st).2).stepCount = st.stepCount := by
  unfold queryOnce
  split
  · rfl
  · split <;> rfl

lemma sampleLoop_stepCount (cfg : AgentCfg) (M : ModelOracle) :
    ∀ (fuel : ℕ) (resp : List Msg) (st : AgentState),
      ((sampleLoop cfg M fuel resp st).2).stepCount = st.stepCount := by
  intro fuel
  induction fuel with
  | zero => intro resp st; rfl
  | succ fuel ih =>
      intro resp st
      unfold sampleLoop
      split
      · have hq := queryOnce_stepCount cfg M none st
        rcases hql : queryOnce cfg M none st with ⟨r, st1⟩
        rw [hql] at hq
        cases r with
        | error e => simpa using hq
        | ok m => simpa [ih] using hq
      · rfl

lemma sampleResponses_stepCount (cfg : AgentCfg) (M : ModelOracle)
    (P : ContentParse) (st : AgentState) :
    ((sampleResponses cfg M P st).2).stepCount = st.stepCount := by
  unfold sampleResponses
  have hq := queryOnce_stepCount cfg M none st
  have hqn := queryOnce_stepCount cfg M (some (numC cfg)) st
  split
  · rcases hql : queryOnce cfg M none st with ⟨r, st1⟩
    rw [hql] at hq
    cases r with
    | error e => simpa using hq
    | ok m => simpa using hq
  · split
    · rcases hql : queryOnce cfg M (some (numC cfg)) st with ⟨r, st1⟩
      rw [hql] at hqn
      cases r with
      | error e =>
          by_cases hi : e.isInterrupt = true
          · simp only [hi, if_true]
            simpa using hqn
          · simp only [hi, if_false]
            calc ((sampleLoop cfg M (numC cfg) [] st1).2).stepCount
                = st1.stepCount := sampleLoop_stepCount cfg M (numC cfg) [] st1
              _ = st.stepCount := by simpa using hqn
      | ok m =>
          simp only
          calc ((sampleLoop cfg M (numC cfg)
                  (if (splitNResponse P m (numC cfg)).isEmpty then [m]
                   else splitNResponse P m (numC cfg)) st1).2).stepCount
              = st1.stepCount := sampleLoop_stepCount cfg M (numC cfg) _ st1
            _ = st.stepCount := by simpa using hqn
    · exact sampleLoop_stepCount cfg M (numC cfg) [] st

lemma sampleCandidates_stepCount (cfg : AgentCfg) (M : ModelOracle)
    (P : ContentParse) (st : AgentState) :
    ((sampleCandidates cfg M P st).2).stepCount = st.stepCount := by
  unfold sampleCandidates
  have h := sampleResponses_stepCount cfg M P st
  rcases hs : sampleResponses cfg M P st with ⟨r, st'⟩
  rw [hs] at h
  cases r <;> simpa using h

lemma agentQuery_stepCount (cfg : AgentCfg) (M : ModelOracle) (P : ContentParse)
    (vsel : List CandidateInfo → ℤ) (st : AgentState) :
    ((agentQuery cfg M P vsel st).2).stepCount = st.stepCount := by
  unfold agentQuery
  split
  · rfl
  · have := sampleCandidates_stepCount cfg M P st
    rcases hs : sampleCandidates cfg M P st with ⟨r, st1⟩
    rw [hs] at this
    cases r with
    | error e => simpa using this
    | ok pr => rcases pr with ⟨responses, infos⟩; simpa using this

lemma executeActions_stepCount (M : ModelOracle) (E : EnvOracle) (msg : Msg)
    (st : AgentState) : ((executeActions M E msg st).2).stepCount = st.stepCount := by
  unfold executeActions
  split <;> rfl

/-! ## Claim C8 -/

/-- C8: every `step()` call that completes without raising increments the
executed-step counter by exactly one, independently of how many candidates
were sampled and how many actions were executed. -/
theorem step_increments_stepCount_once (cfg : AgentCfg) (M : ModelOracle)
    (E : EnvOracle) (P : ContentParse) (vsel : List CandidateInfo → ℤ)
    (st : AgentState) (obs : List Msg) (st' : AgentState)
    (h : agentStep cfg M E P vsel st = (.ok obs, st')) :
    st'.stepCount = st.stepCount + 1 := by
  unfold agentStep at h
  have hq := agentQuery_stepCount cfg M P vsel st
  rcases hql : agentQuery cfg M P vsel st with ⟨r1, st1⟩
  rw [hql] at h hq
  cases r1 with
  | error e => simp at h
  | ok msg =>
      simp only at h hq
      have he := executeActions_stepCount M E msg st1
      rcases hel : executeActions M E msg st1 with ⟨r2, st2⟩
      rw [hel] at h he
      cases r2 with
      | error e => simp at h
      | ok obs2 =>
          simp only at h he
          have hst : st' = { st2 with stepCount := st2.stepCount + 1 } :=
            (congrArg Prod.snd h).symm
          rw [hst]
          simp only
          omega

/-! ## Claim C1 -/

/-- C1: once `step_limit > 0 ∧ step_count ≥ step_limit` or
`cost_limit > 0 ∧ cost ≥ cost_limit` holds, the next `step()` raises the
terminal `LimitsExceeded` signal (whose exit message has
`exit_status = "LimitsExceeded"`) before issuing any new model query — the
state, and in particular `n_calls`, is returned unchanged, for every model
and environment oracle. -/
theorem step_raises_limits_before_query (cfg : AgentCfg) (M : ModelOracle)
    (E : EnvOracle) (P : ContentParse) (vsel : List CandidateInfo → ℤ)
    (st : AgentState)
    (h : (0 < cfg.stepLimit ∧ cfg.stepLimit ≤ (st.stepCount : ℤ)) ∨
         (0 < cfg.costLimit ∧ cfg.costLimit ≤ st.cost)) :
    agentStep cfg M E P vsel st = (.error (.limitsExceeded limitsExitMsg), st) ∧
    limitsExitMsg.extra.exitStatus = some "LimitsExceeded" ∧
    ((agentStep cfg M E P vsel st).2).nCalls = st.nCalls := by
  have hb : limitsBreached cfg st = true := by
    simp only [limitsBreached, Bool.or_eq_true, Bool.and_eq_true, decide_eq_true_eq]
    exact h
  have hstep : agentStep cfg M E P vsel st = (.error (.limitsExceeded limitsExitMsg), st) := by
    unfold agentStep agentQuery
    rw [hb]
    simp
  refine ⟨hstep, rfl, ?_⟩
  rw [hstep]

/-- C1 witness: with `step_limit = 1` already reached, `step()` returns the
`LimitsExceeded` signal and the unchanged state. -/
theorem step_raises_limits_before_query_witness :
    agentStep { stepLimit := 1 } (constModel (echoMsg "ls")) echoEnv noParse
        (fun _ => 0) { stepCount := 1 } =
      (.error (.limitsExceeded limitsExitMsg), { stepCount := 1 }) :=
  (step_raises_limits_before_query { stepLimit := 1 } (constModel (echoMsg "ls"))
    echoEnv noParse (fun _ => 0) { stepCount := 1 }
    (Or.inl ⟨by decide, by decide⟩)).1

/-- C8 witness: one concrete successful step takes the counter from 0
to 1. -/
theorem step_increments_stepCount_once_witness :
    ((agentStep {} (constModel (echoMsg "ls")) echoEnv noParse (fun _ => 0)
        {}).2).stepCount = AgentState.stepCount {} + 1 :=
  step_increments_stepCount_once {} (constModel (echoMsg "ls")) echoEnv noParse
    (fun _ => 0) {} [{ role := "user", content := "ls" }]
    ((agentStep {} (constModel (echoMsg "ls")) echoEnv noParse (fun _ => 0) {}).2)
    (by with_unfolding_all decide)

/-! ## Claim C2 -/

lemma splitNResponse_length_le (P : ContentParse) (r : Msg) (n : ℕ) :
    (splitNResponse P r n).length ≤ n := by
  unfold splitNResponse
  rcases r.extra.responseChoices with _ | choices
  · simp
  · simp only
    split
    · simp
    · calc ((choices.take n).mapIdx fun idx cm => makeChoiceResponse P r cm idx).length
          = (choices.take n).length := List.length_mapIdx
        _ ≤ n := by simp [List.length_take]

lemma sampleLoop_ok_length (cfg : AgentCfg) (M : ModelOracle) :
    ∀ (fuel : ℕ) (resp : List Msg) (st : AgentState) (r : List Msg) (st' : AgentState),
      sampleLoop cfg M fuel resp st = (.ok r, st') →
      numC cfg ≤ resp.length + fuel → resp.length ≤ numC cfg →
      r.length = numC cfg := by
  intro fuel
  induction fuel with
  | zero =>
      intro resp st r st' h hge hle
      unfold sampleLoop at h
      have h1 : resp = r := by simpa using congrArg Prod.fst h
      subst h1
      omega
  | succ fuel ih =>
      intro resp st r st' h hge hle
      unfold sampleLoop at h
      split at h
      · rcases hql : queryOnce cfg M none st with ⟨q, st1⟩
        rw [hql] at h
        cases q with
        | error e => simp at h
        | ok m =>
            simp only at h
            exact ih (resp ++ [m]) st1 r st' h
              (by simp only [List.length_append, List.length_cons, List.length_nil]; omega)
              (by simp only [List.length_append, List.length_cons, List.length_nil]; omega)
      · have h1 : resp = r := by simpa using congrArg Prod.fst h
        subst h1
        omega

lemma sampleResponses_ok_length (cfg : AgentCfg) (M : ModelOracle)
    (P : ContentParse) (st : AgentState) (r : List Msg) (st' : AgentState)
    (h : sampleResponses cfg M P st = (.ok r, st')) :
    r.length = numC cfg := by
  unfold sampleResponses at h
  split at h
  · rcases hql : queryOnce cfg M none st with ⟨q, st1⟩
    rw [hql] at h
    cases q with
    | error e => simp at h
    | ok m =>
        simp only at h
        have : [m] = r := by simpa using congrArg Prod.fst h
        simp [← this]
        omega
  · split at h
    · rcases hql : queryOnce cfg M (some (numC cfg)) st with ⟨q, st1⟩
      rw [hql] at h
      cases q with
      | error e =>
          simp only at h
          split at h
          · simp at h
          · exact sampleLoop_ok_length cfg M (numC cfg) [] st1 r st' h
              (by simp) (by simp)
      | ok m =>
          simp only at h
          refine sampleLoop_ok_length cfg M (numC cfg) _ st1 r st' h ?_ ?_
          · omega
          · split
            · have := numC_pos cfg
              simpa using this
            · exact splitNResponse_length_le P m (numC cfg)
    · exact sampleLoop_ok_length cfg M (numC cfg) [] st r st' h (by simp) (by simp)

lemma sampleCandidates_ok_shape (cfg : AgentCfg) (M : ModelOracle)
    (P : ContentParse) (st : AgentState) (resps : List Msg)
    (infos : List CandidateInfo) (st' : AgentState)
    (h : sampleCandidates cfg M P st = (.ok (resps, infos), st')) :
    resps.length = numC cfg ∧
    infos = resps.mapIdx (fun i m => buildCandidateInfo m i) ∧
    sampleResponses cfg M P st = (.ok resps, st') := by
  unfold sampleCandidates at h
  rcases hs : sampleResponses cfg M P st with ⟨q, st1⟩
  rw [hs] at h
  cases q with
  | error e => simp at h
  | ok rr =>
      simp only at h
      have hfst := congrArg Prod.fst h
      have hsnd : st1 = st' := congrArg Prod.snd h
      have hp : (rr, rr.mapIdx (fun i m => buildCandidateInfo m i)) = (resps, infos) :=
        Except.ok.inj hfst
      have h2 : rr = resps := congrArg Prod.fst hp
      have h3 : rr.mapIdx (fun i m => buildCandidateInfo m i) = infos := congrArg Prod.snd hp
      subst h2
      subst hsnd
      exact ⟨sampleResponses_ok_length cfg M P st rr st1 hs, h3.symm, rfl⟩

/-- C2: for every enabled verifier and non-empty candidate list, whatever
raw index the verifier returns, the committed `selected_index` (recorded
in the verifier metadata and used to pick the committed message) is the
caller-clamped value, lying in `[0, N-1]`. -/
theorem verifier_selected_index_clamped (cfg : AgentCfg) (M : ModelOracle)
    (P : ContentParse) (vsel : List CandidateInfo → ℤ) (st : AgentState)
    (msg : Msg) (st1 : AgentState)
    (hen : cfg.verifierEnabled = true)
    (hok : agentQuery cfg M P vsel st = (.ok msg, st1)) :
    ∃ (meta : VerifierMeta) (responses : List Msg) (st2 : AgentState),
      msg.extra.verifier = some meta ∧
      meta.enabled = true ∧
      sampleCandidates cfg M P st = (.ok (responses, meta.candidates), st2) ∧
      responses.length = meta.candidates.length ∧
      1 ≤ meta.candidates.length ∧
      meta.selectedIndex = clampIndex (vsel meta.candidates) responses.length ∧
      0 ≤ meta.selectedIndex ∧
      meta.selectedIndex ≤ (meta.candidates.length : ℤ) - 1 ∧
      msg = { responses.getD meta.selectedIndex.toNat {} with
              extra := { (responses.getD meta.selectedIndex.toNat {}).extra with
                         verifier := some meta } } := by
  unfold agentQuery at hok
  split at hok
  · simp at hok
  · rcases hs : sampleCandidates cfg M P st with ⟨q, st2⟩
    rw [hs] at hok
    cases q with
    | error e => simp at hok
    | ok pr =>
        rcases pr with ⟨responses, infos⟩
        simp only [hen, if_true] at hok
        rcases sampleCandidates_ok_shape cfg M P st responses infos st2 hs with
          ⟨hlen, hinfos, _⟩
        have hinfolen : infos.length = responses.length := by
          rw [hinfos]
          exact List.length_mapIdx
        have hmsg := congrArg Prod.fst hok
        simp only at hmsg
        have hmsg' := Except.ok.inj hmsg
        refine ⟨{ enabled := true, vtype := cfg.verifierType,
                  selectedIndex := clampIndex (vsel infos) responses.length,
                  selectionIndexBase := cfg.selectionIndexBase,
                  candidates := infos }, responses, st2, ?_, rfl, ?_, ?_, ?_, rfl, ?_, ?_, ?_⟩
        · rw [← hmsg']
        · rfl
        · exact hinfolen.symm
        · show 1 ≤ infos.length
          rw [hinfolen]
          have := numC_pos cfg
          omega
        · show (0 : ℤ) ≤ clampIndex (vsel infos) responses.length
          unfold clampIndex
          exact le_max_left 0 _
        · show clampIndex (vsel infos) responses.length ≤ (infos.length : ℤ) - 1
          unfold clampIndex
          have h1 : 1 ≤ responses.length := by
            have := numC_pos cfg
            omega
          rw [hinfolen]
          have h2 : min (vsel infos) ((responses.length : ℤ) - 1) ≤ (responses.length : ℤ) - 1 :=
            min_le_right _ _
          omega
        · rw [← hmsg']

/-- C2 witness: a verifier returning the wild index 99 over two sampled
candidates is clamped to 1. -/
theorem verifier_selected_index_clamped_witness :
    ({ verifierEnabled := true, numCandidates := 2 } : AgentCfg).verifierEnabled = true ∧
    ∃ (meta : VerifierMeta) (responses : List Msg) (st2 : AgentState),
      ((match (agentQuery { verifierEnabled := true, numCandidates := 2 }
          (constModel (echoMsg "ls")) noParse (fun _ => 99) {}).1 with
        | .ok m => m
        | .error _ => {}) : Msg).extra.verifier = some meta ∧
      meta.enabled = true ∧
      sampleCandidates { verifierEnabled := true, numCandidates := 2 }
          (constModel (echoMsg "ls")) noParse {} = (.ok (responses, meta.candidates), st2) ∧
      responses.length = meta.candidates.length ∧
      1 ≤ meta.candidates.length ∧
      meta.selectedIndex = clampIndex (99 : ℤ) responses.length ∧
      0 ≤ meta.selectedIndex ∧
      meta.selectedIndex ≤ (meta.candidates.length : ℤ) - 1 ∧
      (match (agentQuery { verifierEnabled := true, numCandidates := 2 }
          (constModel (echoMsg "ls")) noParse (fun _ => 99) {}).1 with
        | .ok m => m
        | .error _ => {}) =
        { responses.getD meta.selectedIndex.toNat {} with
          extra := { (responses.getD meta.selectedIndex.toNat {}).extra with
                     verifier := some meta } } := by
  refine ⟨rfl, ?_⟩
  have h := verifier_selected_index_clamped
    { verifierEnabled := true, numCandidates := 2 } (constModel (echoMsg "ls"))
    noParse (fun _ => 99) {}
    (match (agentQuery { verifierEnabled := true, numCandidates := 2 }
        (constModel (echoMsg "ls")) noParse (fun _ => 99) {}).1 with
      | .ok m => m
      | .error _ => {})
    ((agentQuery { verifierEnabled := true, numCandidates := 2 }
        (constModel (echoMsg "ls")) noParse (fun _ => 99) {}).2)
    rfl (by with_unfolding_all decide)
  exact h

/-! ## Claim C10 -/

lemma makeChoiceResponse_actions (P : ContentParse) (base : Msg)
    (cm : ChoiceMsg) (i : ℕ) :
    (makeChoiceResponse P base cm i).extra.actions =
      if (parseActionsFromChoice P cm).1 = [] ∧ i = 0 then base.extra.actions
      else (parseActionsFromChoice P cm).1 := by
  unfold makeChoiceResponse
  cases cm with
  | notDict => rfl
  | fields r c t =>
      rcases r with _ | rv <;> rcases c with _ | cv <;> rcases t with _ | tv <;> rfl

/-- C10: splitting a batched n-choice response is asymmetric in the choice
index: a choice `i ≥ 1` whose message parses to no actions yields an empty
action list, while choice 0 inherits the parent batched response's parsed
actions. -/
theorem choice_zero_inherits_actions (P : ContentParse) (base : Msg)
    (cm : ChoiceMsg) :
    (∀ i, 1 ≤ i → (parseActionsFromChoice P cm).1 = [] →
      (makeChoiceResponse P base cm i).extra.actions = []) ∧
    ((parseActionsFromChoice P cm).1 = [] →
      (makeChoiceResponse P base cm 0).extra.actions = base.extra.actions) := by
  constructor
  · intro i hi hp
    have hne : ¬((parseActionsFromChoice P cm).1 = [] ∧ i = 0) := by
      rintro ⟨-, rfl⟩
      omega
    rw [makeChoiceResponse_actions, if_neg hne]
    exact hp
  · intro hp
    rw [makeChoiceResponse_actions, if_pos ⟨hp, rfl⟩]

/-- C10 witness: an empty choice message yields no actions for choice 1 but
inherits the base's action for choice 0. -/
theorem choice_zero_inherits_actions_witness :
    (makeChoiceResponse noParse (echoMsg "ls") (.fields none none none) 1).extra.actions = [] ∧
    (makeChoiceResponse noParse (echoMsg "ls") (.fields none none none) 0).extra.actions =
      (echoMsg "ls").extra.actions :=
  ⟨(choice_zero_inherits_actions noParse (echoMsg "ls") (.fields none none none)).1
      1 (by decide) (by decide),
   (choice_zero_inherits_actions noParse (echoMsg "ls") (.fields none none none)).2
      (by decide)⟩

/-! ## Claim C7 -/

lemma parseToolCallsCore_append (l1 l2 : List ToolCallEntry) :
    parseToolCallsCore (l1 ++ l2) =
      ((parseToolCallsCore l1).1 ++ (parseToolCallsCore l2).1,
       (parseToolCallsCore l1).2 ++ (parseToolCallsCore l2).2) := by
  induction l1 with
  | nil => simp [parseToolCallsCore]
  | cons tc rest ih =>
      have ih1 : (parseToolCallsCore (rest ++ l2)).1 =
          (parseToolCallsCore rest).1 ++ (parseToolCallsCore l2).1 :=
        congrArg Prod.fst ih
      have ih2 : (parseToolCallsCore (rest ++ l2)).2 =
          (parseToolCallsCore rest).2 ++ (parseToolCallsCore l2).2 :=
        congrArg Prod.snd ih
      simp only [List.cons_append, parseToolCallsCore]
      cases processToolCall tc <;> simp [ih1, ih2]

/-- C7: tool-call parsing yields an action (command, with a truthy id
preserved) for each well-formed `bash` entry, a descriptive error string
for each malformed entry (non-dict entry, unparseable JSON arguments,
unknown function name, missing `"command"`), and processes the entries
independently — one malformed entry does not block the others. -/
theorem tool_call_parsing_independent_entries :
    (∀ l : List ToolCallEntry,
      (parseToolCallsCore l).1 =
        l.filterMap (fun tc => (processToolCall tc).toOption) ∧
      (parseToolCallsCore l).2 =
        l.filterMap (fun tc =>
          match processToolCall tc with
          | .error e => some e
          | .ok _ => none)) ∧
    (∀ (entries : List (String × String)) (id : Option String) (cmd : String),
      dictGet "command" entries = some cmd →
      processToolCall (.entry (some "bash") (.ok (.dict entries)) id) =
        .ok { command := cmd, toolCallId := truthyId id }) ∧
    (processToolCall .notDict = .error "Malformed tool call object.") ∧
    (∀ (n : Option String) (e : String) (id : Option String),
      processToolCall (.entry n (.error e) id) =
        .error ("Error parsing tool call arguments: " ++ e)) ∧
    (∀ (n : Option String) (v : ArgsVal) (id : Option String), n ≠ some "bash" →
      processToolCall (.entry n (.ok v) id) =
        .error ("Unknown tool '" ++ fnameText n ++ "'.")) ∧
    (∀ (entries : List (String × String)) (id : Option String),
      dictGet "command" entries = none →
      processToolCall (.entry (some "bash") (.ok (.dict entries)) id) =
        .error "Missing 'command' argument in bash tool call.") := by
  refine ⟨?_, ?_, rfl, ?_, ?_, ?_⟩
  · intro l
    induction l with
    | nil => exact ⟨rfl, rfl⟩
    | cons tc rest ih =>
        rcases ih with ⟨ih1, ih2⟩
        constructor
        · simp only [parseToolCallsCore, List.filterMap_cons]
          cases hp : processToolCall tc <;> simp [hp, ih1, Except.toOption]
        · simp only [parseToolCallsCore, List.filterMap_cons]
          cases hp : processToolCall tc <;> simp [hp, ih2]
  · intro entries id cmd hcmd
    unfold processToolCall
    simp [hcmd]
  · intro n e id
    rfl
  · intro n v id hn
    unfold processToolCall
    simp [hn]
  · intro entries id hcmd
    unfold processToolCall
    simp [hcmd]

/-- C7 witness: a batch with one malformed and two well-formed entries
yields both actions (ids preserved) and one error. -/
theorem tool_call_parsing_independent_entries_witness :
    (parseToolCallsCore
        [.notDict,
         .entry (some "bash") (.ok (.dict [("command", "ls")])) (some "call_1"),
         .entry (some "bash") (.ok (.dict [("command", "pwd")])) none]).1 =
      [{ command := "ls", toolCallId := some "call_1" },
       { command := "pwd", toolCallId := none }] ∧
    (parseToolCallsCore
        [.notDict,
         .entry (some "bash") (.ok (.dict [("command", "ls")])) (some "call_1"),
         .entry (some "bash") (.ok (.dict [("command", "pwd")])) none]).2 =
      ["Malformed tool call object."] ∧
    processToolCall (.entry (some "bash") (.ok (.dict [("command", "ls")]))
        (some "call_1")) =
      .ok { command := "ls", toolCallId := some "call_1" } := by
  refine ⟨?_, ?_, ?_⟩
  · rw [(tool_call_parsing_independent_entries.1 _).1]
    decide
  · rw [(tool_call_parsing_independent_entries.1 _).2]
    decide
  · exact tool_call_parsing_independent_entries.2.1 [("command", "ls")]
      (some "call_1") "ls" (by decide)

/-! ## Claim C4 -/

/-- The `for candidate in candidates: if candidate.get("action"): return
candidate["index"]` loop returns the position of the first valid candidate
whenever the index fields record list positions (shifted by `off`). -/
lemma find_truthy_index_spec (l : List CandidateInfo) :
    ∀ off : ℕ, (∀ k c, l[k]? = some c → c.index = off + k) →
    (match l.find? (fun c => truthyStr c.action) with
     | some c => c.index
     | none => 0) =
    (match specFirstValidPos l with
     | some k => off + k
     | none => 0) := by
  induction l with
  | nil => intro off wf; rfl
  | cons c cs ih =>
      intro off wf
      have wf' : ∀ k d, cs[k]? = some d → d.index = (off + 1) + k := by
        intro k d hk
        have := wf (k + 1) d (by simpa using hk)
        omega
      by_cases h : truthyStr c.action = true
      · have hfind : List.find? (fun x => truthyStr x.action) (c :: cs) = some c :=
          List.find?_cons_of_pos _ h
        have hspec : specFirstValidPos (c :: cs) = some 0 := by
          rw [show specFirstValidPos (c :: cs) =
              (if truthyStr c.action = true then some 0
               else (specFirstValidPos cs).map (· + 1)) from rfl, if_pos h]
        rw [hfind, hspec]
        have hc : c.index = off + 0 := wf 0 c (by simp)
        simpa using hc
      · have hfind : List.find? (fun x => truthyStr x.action) (c :: cs) =
            List.find? (fun x => truthyStr x.action) cs :=
          List.find?_cons_of_neg _ h
        have hspec : specFirstValidPos (c :: cs) = (specFirstValidPos cs).map (· + 1) := by
          rw [show specFirstValidPos (c :: cs) =
              (if truthyStr c.action = true then some 0
               else (specFirstValidPos cs).map (· + 1)) from rfl, if_neg h]
        rw [hfind, hspec]
        have ihh := ih (off + 1) wf'
        rcases hsp : specFirstValidPos cs with _ | k <;> rw [hsp] at ihh
        · simpa using ihh
        · have ihh' : (match List.find? (fun x => truthyStr x.action) cs with
              | some x => x.index
              | none => 0) = off + 1 + k := ihh
          show (match List.find? (fun x => truthyStr x.action) cs with
              | some x => x.index
              | none => 0) = off + (k + 1)
          rw [ihh']
          omega

/-- C4: the LLM verifier selects the last regex match converted to 0-based
(by subtracting `selection_index_base`); with no match or an out-of-range
converted index it returns the configured fallback (0, or the first
candidate with a non-empty action under `"first_valid"`); the auxiliary
score extractions never influence the selected index. -/
theorem llm_select_last_match_or_fallback (base : ℤ) (fallback : String)
    (candidates : List CandidateInfo) (nCheck : ℕ) :
    (∀ (j : LLMJudgeOutcome) (ms : List ℕ) (raw : ℕ),
      j.selectionMatches = ms ++ [raw] →
      0 ≤ (raw : ℤ) - base → (raw : ℤ) - base < (candidates.length : ℤ) →
      (llmSelect base fallback candidates nCheck j).1 = (raw : ℤ) - base) ∧
    (∀ j : LLMJudgeOutcome, j.selectionMatches = [] →
      (llmSelect base fallback candidates nCheck j).1 =
        (fallbackIndex fallback candidates : ℤ)) ∧
    (∀ (j : LLMJudgeOutcome) (ms : List ℕ) (raw : ℕ),
      j.selectionMatches = ms ++ [raw] →
      ((raw : ℤ) - base < 0 ∨ (candidates.length : ℤ) ≤ (raw : ℤ) - base) →
      (llmSelect base fallback candidates nCheck j).1 =
        (fallbackIndex fallback candidates : ℤ)) ∧
    (fallback ≠ "first_valid" → fallbackIndex fallback candidates = 0) ∧
    ((∀ (k : ℕ) (c : CandidateInfo), candidates[k]? = some c → c.index = k) →
      fallbackIndex "first_valid" candidates =
        match specFirstValidPos candidates with
        | some k => k
        | none => 0) ∧
    (∀ j j' : LLMJudgeOutcome, j.selectionMatches = j'.selectionMatches →
      (llmSelect base fallback candidates nCheck j).1 =
        (llmSelect base fallback candidates nCheck j').1) := by
  refine ⟨?_, ?_, ?_, ?_, ?_, ?_⟩
  · intro j ms raw hms h0 hlt
    show llmSelectIndex base fallback j.selectionMatches candidates = (raw : ℤ) - base
    rw [hms]
    unfold llmSelectIndex
    rw [List.getLast?_concat]
    simp only [if_pos (And.intro h0 hlt)]
  · intro j hms
    show llmSelectIndex base fallback j.selectionMatches candidates = _
    rw [hms]
    rfl
  · intro j ms raw hms hout
    show llmSelectIndex base fallback j.selectionMatches candidates = _
    rw [hms]
    unfold llmSelectIndex
    rw [List.getLast?_concat]
    simp only
    rw [if_neg]
    rintro ⟨ha, hb⟩
    rcases hout with h | h <;> omega
  · intro hfb
    unfold fallbackIndex
    rw [if_neg hfb]
  · intro wf
    unfold fallbackIndex
    rw [if_pos rfl]
    have hspec := find_truthy_index_spec candidates 0 (fun k c hk => by
      have := wf k c hk
      omega)
    rcases hsp : specFirstValidPos candidates with _ | k <;> rw [hsp] at hspec <;>
      simpa using hspec
  · intro j j' hms
    show llmSelectIndex base fallback j.selectionMatches candidates =
      llmSelectIndex base fallback j'.selectionMatches candidates
    rw [hms]

/-- C4 witness: base-1 last match 2 over two candidates selects candidate 1;
no match falls back; the `"first_valid"` fallback picks the first candidate
with a non-empty action. -/
theorem llm_select_last_match_or_fallback_witness :
    (llmSelect 1 "first_candidate"
        [buildCandidateInfo {} 0, buildCandidateInfo (echoMsg "ls") 1] 0
        { selectionMatches := [9, 2], scorePairs := [], progressMatches := [],
          checklistPairs := [] }).1 = ((2 : ℕ) : ℤ) - 1 ∧
    (llmSelect 1 "first_candidate"
        [buildCandidateInfo {} 0, buildCandidateInfo (echoMsg "ls") 1] 0
        { selectionMatches := [], scorePairs := [], progressMatches := [],
          checklistPairs := [] }).1 =
      (fallbackIndex "first_candidate"
        [buildCandidateInfo {} 0, buildCandidateInfo (echoMsg "ls") 1] : ℤ) ∧
    fallbackIndex "first_candidate"
        [buildCandidateInfo {} 0, buildCandidateInfo (echoMsg "ls") 1] = 0 :=
  ⟨(llm_select_last_match_or_fallback 1 "first_candidate"
      [buildCandidateInfo {} 0, buildCandidateInfo (echoMsg "ls") 1] 0).1
      _ [9] 2 rfl (by decide) (by decide),
   (llm_select_last_match_or_fallback 1 "first_candidate"
      [buildCandidateInfo {} 0, buildCandidateInfo (echoMsg "ls") 1] 0).2.1
      _ rfl,
   (llm_select_last_match_or_fallback 1 "first_candidate"
      [buildCandidateInfo {} 0, buildCandidateInfo (echoMsg "ls") 1] 0).2.2.2.1
      (by decide)⟩

/-! ## Claim C3 -/

lemma selectScan_cons_some_lt (k : ℕ) (bi : ℕ) (bv r : ℚ)
    (rest : List (Option ℚ)) (h : bv < r) :
    selectScan k (some (bi, bv)) (some r :: rest) =
      selectScan (k + 1) (some (k, r)) rest := by
  simp [selectScan, h]

lemma selectScan_cons_some_ge (k : ℕ) (bi : ℕ) (bv r : ℚ)
    (rest : List (Option ℚ)) (h : ¬bv < r) :
    selectScan k (some (bi, bv)) (some r :: rest) =
      selectScan (k + 1) (some (bi, bv)) rest := by
  simp [selectScan, h]

lemma selectScan_all_none (rewards : List (Option ℚ)) :
    ∀ (k : ℕ) (best : Option (ℕ × ℚ)),
      (∀ (m : ℕ) (v : ℚ), rewards[m]? ≠ some (some v)) →
      selectScan k best rewards = best := by
  induction rewards with
  | nil => intro k best _; rfl
  | cons x rest ih =>
      intro k best hall
      cases x with
      | none =>
          exact ih (k + 1) best (fun m v hv => hall (m + 1) v (by simpa using hv))
      | some r => exact absurd (by simp : (some r :: rest)[0]? = some (some r)) (hall 0 r)

/-- The running best of `_select_best`'s scan: if the scan of the suffix
starting at position `k` with running best `best` returns `some (i, r)`,
then either the running best wins (and dominates the suffix), or `(i, r)`
is an element of the suffix beating the running best, maximal over the
suffix, and strictly above every earlier suffix element. -/
lemma selectScan_some_spec (rewards : List (Option ℚ)) :
    ∀ (k : ℕ) (best : Option (ℕ × ℚ)) (i : ℕ) (r : ℚ),
      selectScan k best rewards = some (i, r) →
      (best = some (i, r) ∧
        (∀ (m : ℕ) (v : ℚ), rewards[m]? = some (some v) → v ≤ r)) ∨
      (∃ m : ℕ, i = k + m ∧ rewards[m]? = some (some r) ∧
        (∀ p : ℕ × ℚ, best = some p → p.2 < r) ∧
        (∀ (m' : ℕ) (v : ℚ), rewards[m']? = some (some v) → v ≤ r) ∧
        (∀ (m' : ℕ) (v : ℚ), m' < m → rewards[m']? = some (some v) → v < r)) := by
  induction rewards with
  | nil =>
      intro k best i r h
      left
      exact ⟨h, fun m v hv => by simp at hv⟩
  | cons x rest ih =>
      intro k best i r h
      cases x with
      | none =>
          rcases ih (k + 1) best i r h with ⟨hb, hall⟩ | ⟨m, him, hm, hbest, hall, hearly⟩
          · left
            refine ⟨hb, fun m v hv => ?_⟩
            match m, hv with
            | 0, hv => simp at hv
            | m + 1, hv => exact hall m v (by simpa using hv)
          · right
            refine ⟨m + 1, by omega, by simpa using hm, hbest, ?_, ?_⟩
            · intro m' v hv
              match m', hv with
              | 0, hv => simp at hv
              | m' + 1, hv => exact hall m' v (by simpa using hv)
            · intro m' v hlt hv
              match m', hv with
              | 0, hv => simp at hv
              | m' + 1, hv => exact hearly m' v (by omega) (by simpa using hv)
      | some r0 =>
          cases best with
          | none =>
              have h' : selectScan (k + 1) (some (k, r0)) rest = some (i, r) := h
              rcases ih (k + 1) (some (k, r0)) i r h' with
                ⟨hb, hall⟩ | ⟨m, him, hm, hbest, hall, hearly⟩
              · have hp : (k, r0) = (i, r) := Option.some.inj hb
                have hik : k = i := congrArg Prod.fst hp
                have hrr : r0 = r := congrArg Prod.snd hp
                right
                refine ⟨0, by omega, by simp [hrr], by simp, ?_, ?_⟩
                · intro m' v hv
                  match m', hv with
                  | 0, hv =>
                      have hsv : some r0 = some v := by simpa using hv
                      have hv0 := Option.some.inj hsv
                      subst hv0
                      exact le_of_eq hrr
                  | m' + 1, hv => exact hall m' v (by simpa using hv)
                · intro m' v hlt hv
                  omega
              · have hr0r : r0 < r := hbest (k, r0) rfl
                right
                refine ⟨m + 1, by omega, by simpa using hm, by simp, ?_, ?_⟩
                · intro m' v hv
                  match m', hv with
                  | 0, hv =>
                      have : some r0 = some v := by simpa using hv
                      have hv0 := Option.some.inj this
                      subst hv0
                      exact le_of_lt hr0r
                  | m' + 1, hv => exact hall m' v (by simpa using hv)
                · intro m' v hlt hv
                  match m', hv with
                  | 0, hv =>
                      have : some r0 = some v := by simpa using hv
                      have hv0 := Option.some.inj this
                      subst hv0
                      exact hr0r
                  | m' + 1, hv => exact hearly m' v (by omega) (by simpa using hv)
          | some p =>
              rcases p with ⟨bi, bv⟩
              by_cases hlt : bv < r0
              · rw [selectScan_cons_some_lt k bi bv r0 rest hlt] at h
                rcases ih (k + 1) (some (k, r0)) i r h with
                  ⟨hb, hall⟩ | ⟨m, him, hm, hbest, hall, hearly⟩
                · have hp : (k, r0) = (i, r) := Option.some.inj hb
                  have hik : k = i := congrArg Prod.fst hp
                  have hrr : r0 = r := congrArg Prod.snd hp
                  right
                  refine ⟨0, by omega, by simp [hrr], ?_, ?_, ?_⟩
                  · intro q hq
                    have hq' : (bi, bv) = q := Option.some.inj hq
                    rw [← hq']
                    show bv < r
                    rw [← hrr]
                    exact hlt
                  · intro m' v hv
                    match m', hv with
                    | 0, hv =>
                        have : some r0 = some v := by simpa using hv
                        have hv0 := Option.some.inj this
                        subst hv0
                        exact le_of_eq hrr
                    | m' + 1, hv => exact hall m' v (by simpa using hv)
                  · intro m' v hl hv
                    omega
                · have hr0r : r0 < r := hbest (k, r0) rfl
                  right
                  refine ⟨m + 1, by omega, by simpa using hm, ?_, ?_, ?_⟩
                  · intro q hq
                    have hq' : (bi, bv) = q := Option.some.inj hq
                    rw [← hq']
                    simp only
                    exact lt_trans hlt hr0r
                  · intro m' v hv
                    match m', hv with
                    | 0, hv =>
                        have : some r0 = some v := by simpa using hv
                        have hv0 := Option.some.inj this
                        subst hv0
                        exact le_of_lt hr0r
                    | m' + 1, hv => exact hall m' v (by simpa using hv)
                  · intro m' v hl hv
                    match m', hv with
                    | 0, hv =>
                        have : some r0 = some v := by simpa using hv
                        have hv0 := Option.some.inj this
                        subst hv0
                        exact hr0r
                    | m' + 1, hv => exact hearly m' v (by omega) (by simpa using hv)
              · rw [selectScan_cons_some_ge k bi bv r0 rest hlt] at h
                rcases ih (k + 1) (some (bi, bv)) i r h with
                  ⟨hb, hall⟩ | ⟨m, him, hm, hbest, hall, hearly⟩
                · have hp : (bi, bv) = (i, r) := Option.some.inj hb
                  have hrr : bv = r := congrArg Prod.snd hp
                  left
                  refine ⟨by rw [← hp], fun m' v hv => ?_⟩
                  match m', hv with
                  | 0, hv =>
                      have : some r0 = some v := by simpa using hv
                      have hv0 := Option.some.inj this
                      subst hv0
                      rw [← hrr]
                      exact le_of_not_lt hlt
                  | m' + 1, hv => exact hall m' v (by simpa using hv)
                · have hbvr : bv < r := hbest (bi, bv) rfl
                  right
                  refine ⟨m + 1, by omega, by simpa using hm, ?_, ?_, ?_⟩
                  · intro q hq
                    have hq' : (bi, bv) = q := Option.some.inj hq
                    rw [← hq']
                    simp only
                    exact hbvr
                  · intro m' v hv
                    match m', hv with
                    | 0, hv =>
                        have : some r0 = some v := by simpa using hv
                        have hv0 := Option.some.inj this
                        subst hv0
                        exact le_of_lt (lt_of_le_of_lt (le_of_not_lt hlt) hbvr)
                    | m' + 1, hv => exact hall m' v (by simpa using hv)
                  · intro m' v hl hv
                    match m', hv with
                    | 0, hv =>
                        have : some r0 = some v := by simpa using hv
                        have hv0 := Option.some.inj this
                        subst hv0
                        exact lt_of_le_of_lt (le_of_not_lt hlt) hbvr
                    | m' + 1, hv => exact hearly m' v (by omega) (by simpa using hv)

lemma selectScan_some_isSome (rewards : List (Option ℚ)) :
    ∀ (k : ℕ) (p : ℕ × ℚ), (selectScan k (some p) rewards).isSome := by
  induction rewards with
  | nil => intro k p; rfl
  | cons x rest ih =>
      intro k p
      cases x with
      | none => exact ih (k + 1) p
      | some r =>
          rcases p with ⟨bi, bv⟩
          by_cases hlt : bv < r
          · rw [selectScan_cons_some_lt k bi bv r rest hlt]
            exact ih (k + 1) (k, r)
          · rw [selectScan_cons_some_ge k bi bv r rest hlt]
            exact ih (k + 1) (bi, bv)

lemma selectScan_isSome_of_mem (rewards : List (Option ℚ)) :
    ∀ (k : ℕ) (best : Option (ℕ × ℚ)) (m : ℕ) (v : ℚ),
      rewards[m]? = some (some v) → (selectScan k best rewards).isSome := by
  induction rewards with
  | nil => intro k best m v hv; simp at hv
  | cons x rest ih =>
      intro k best m v hv
      cases x with
      | none =>
          match m, hv with
          | 0, hv => simp at hv
          | m + 1, hv => exact ih (k + 1) best m v (by simpa using hv)
      | some r =>
          cases best with
          | none => exact selectScan_some_isSome rest (k + 1) (k, r)
          | some p =>
              rcases p with ⟨bi, bv⟩
              by_cases hlt : bv < r
              · rw [selectScan_cons_some_lt k bi bv r rest hlt]
                exact selectScan_some_isSome rest (k + 1) (k, r)
              · rw [selectScan_cons_some_ge k bi bv r rest hlt]
                exact selectScan_some_isSome rest (k + 1) (bi, bv)

/-- C3: with at least one parseable reward, `_select_best` returns the
index of a maximal parsed reward, strictly above all earlier parsed
rewards (ties go to the lowest index); with no parseable reward it returns
the configured fallback: 0 under `"first_candidate"`, and under
`"first_valid"` the position of the first candidate with a non-empty
action, or 0 if there is none. -/
theorem reward_select_argmax_or_fallback (fallback : String)
    (rewards : List (Option ℚ)) (candidates : List CandidateInfo) :
    ((∃ (m : ℕ) (v : ℚ), rewards[m]? = some (some v)) →
      ∃ r : ℚ,
        rewards[selectBest fallback rewards candidates]? = some (some r) ∧
        (∀ (m : ℕ) (v : ℚ), rewards[m]? = some (some v) → v ≤ r) ∧
        (∀ (m : ℕ) (v : ℚ), m < selectBest fallback rewards candidates →
          rewards[m]? = some (some v) → v < r)) ∧
    ((∀ (m : ℕ) (v : ℚ), rewards[m]? ≠ some (some v)) →
      (fallback = "first_candidate" → selectBest fallback rewards candidates = 0) ∧
      ((∀ (k : ℕ) (c : CandidateInfo), candidates[k]? = some c → c.index = k) →
        selectBest "first_valid" rewards candidates =
          match specFirstValidPos candidates with
          | some k => k
          | none => 0)) := by
  constructor
  · rintro ⟨m0, v0, hm0⟩
    have hsome := selectScan_isSome_of_mem rewards 0 none m0 v0 hm0
    rcases hscan : selectScan 0 none rewards with _ | ⟨bi, bv⟩
    · rw [hscan] at hsome
      simp at hsome
    · have hsel : selectBest fallback rewards candidates = bi := by
        unfold selectBest
        rw [hscan]
      rcases selectScan_some_spec rewards 0 none bi bv hscan with
        ⟨hb, _⟩ | ⟨m, him, hm, _, hall, hearly⟩
      · exact absurd hb (by simp)
      · refine ⟨bv, ?_, hall, ?_⟩
        · rw [hsel, him]
          simpa using hm
        · intro m' v hlt hv
          refine hearly m' v ?_ hv
          rw [hsel, him] at hlt
          omega
  · intro hnone
    have hscan := selectScan_all_none rewards 0 none hnone
    constructor
    · intro hfc
      unfold selectBest
      rw [hscan]
      unfold fallbackIndex
      rw [if_neg]
      rw [hfc]
      decide
    · intro wf
      unfold selectBest
      rw [hscan]
      unfold fallbackIndex
      rw [if_pos rfl]
      have hspec := find_truthy_index_spec candidates 0 (fun k c hk => by
        have := wf k c hk
        omega)
      rcases hsp : specFirstValidPos candidates with _ | k <;> rw [hsp] at hspec <;>
        simpa using hspec

/-- C3 witness: rewards `[0.2, 0.9]` select index 1 (the argmax), and
all-unparseable rewards fall back to candidate 0 under
`"first_candidate"`. -/
theorem reward_select_argmax_or_fallback_witness :
    (∃ r : ℚ,
      [some (1/5 : ℚ), some (9/10 : ℚ)][selectBest "first_candidate"
          [some (1/5 : ℚ), some (9/10 : ℚ)] []]? = some (some r) ∧
      (∀ (m : ℕ) (v : ℚ),
        [some (1/5 : ℚ), some (9/10 : ℚ)][m]? = some (some v) → v ≤ r) ∧
      (∀ (m : ℕ) (v : ℚ),
        m < selectBest "first_candidate" [some (1/5 : ℚ), some (9/10 : ℚ)] [] →
        [some (1/5 : ℚ), some (9/10 : ℚ)][m]? = some (some v) → v < r)) ∧
    selectBest "first_candidate" ([none, none] : List (Option ℚ)) [] = 0 ∧
    selectBest "first_candidate" [some (1/5 : ℚ), some (9/10 : ℚ)] [] = 1 := by
  refine ⟨?_, ?_, ?_⟩
  · exact (reward_select_argmax_or_fallback "first_candidate"
      [some (1/5 : ℚ), some (9/10 : ℚ)] []).1
      ⟨0, 1/5, by with_unfolding_all decide⟩
  · exact ((reward_select_argmax_or_fallback "first_candidate"
      ([none, none] : List (Option ℚ)) []).2
      (by intro m v hv; rcases m with _ | _ | m <;> simp at hv)).1 rfl
  · with_unfolding_all decide

/-! ## Claim C6 -/

lemma collectScores_error (oracle : ℕ → ℕ → Except String ScoreOutcome) :
    ∀ (n i cIdx : ℕ) (e : String),
      i ≤ cIdx → cIdx < i + n →
      scoreCandidate (oracle cIdx) = .error e →
      (∀ j, i ≤ j → j < cIdx → ∃ out, scoreCandidate (oracle j) = .ok out) →
      collectScores oracle i n = .error e := by
  intro n
  induction n with
  | zero =>
      intro i cIdx e h1 h2 _ _
      exact absurd h2 (by omega)
  | succ n ih =>
      intro i cIdx e h1 h2 herr hok
      by_cases hic : i = cIdx
      · subst hic
        unfold collectScores
        rw [herr]
      · have hlt : i < cIdx := by omega
        obtain ⟨out, hout⟩ := hok i (le_refl i) hlt
        unfold collectScores
        rw [hout,
          ih (i + 1) cIdx e (by omega) (by omega) herr
            (fun j hj1 hj2 => hok j (by omega) hj2)]

/-- C6: each per-candidate reward query is attempted at most 3 times (the
outcome only depends on the first three attempt results); when all three
attempts raise, the last exception is re-raised and aborts the whole
`select` — it is never downgraded to a default selection. -/
theorem reward_retry_three_attempts_then_propagate :
    (∀ o o' : ℕ → Except String ScoreOutcome,
      (∀ a, a < 3 → o a = o' a) → scoreCandidate o = scoreCandidate o') ∧
    (∀ (o : ℕ → Except String ScoreOutcome) (e0 e1 e2 : String),
      o 0 = .error e0 → o 1 = .error e1 → o 2 = .error e2 →
      scoreCandidate o = .error e2) ∧
    (∀ (fallback : String) (oracle : ℕ → ℕ → Except String ScoreOutcome)
        (candidates : List CandidateInfo) (cIdx : ℕ) (e : String),
      cIdx < candidates.length →
      scoreCandidate (oracle cIdx) = .error e →
      (∀ j, j < cIdx → ∃ out, scoreCandidate (oracle j) = .ok out) →
      rewardSelect fallback oracle candidates = .error e) := by
  refine ⟨?_, ?_, ?_⟩
  · intro o o' h
    have h0 := h 0 (by omega)
    have h1 := h 1 (by omega)
    have h2 := h 2 (by omega)
    show scoreCandidateGo o 0 3 none = scoreCandidateGo o' 0 3 none
    rw [show scoreCandidateGo o 0 3 none =
        (match o 0 with
          | .ok r => Except.ok r
          | .error e => scoreCandidateGo o 1 2 (some e)) from rfl,
      show scoreCandidateGo o' 0 3 none =
        (match o' 0 with
          | .ok r => Except.ok r
          | .error e => scoreCandidateGo o' 1 2 (some e)) from rfl,
      h0]
    cases o' 0 with
    | ok r => rfl
    | error e =>
        show scoreCandidateGo o 1 2 (some e) = scoreCandidateGo o' 1 2 (some e)
        rw [show scoreCandidateGo o 1 2 (some e) =
            (match o 1 with
              | .ok r => Except.ok r
              | .error e' => scoreCandidateGo o 2 1 (some e')) from rfl,
          show scoreCandidateGo o' 1 2 (some e) =
            (match o' 1 with
              | .ok r => Except.ok r
              | .error e' => scoreCandidateGo o' 2 1 (some e')) from rfl,
          h1]
        cases o' 1 with
        | ok r => rfl
        | error e' =>
            show scoreCandidateGo o 2 1 (some e') = scoreCandidateGo o' 2 1 (some e')
            rw [show scoreCandidateGo o 2 1 (some e') =
                (match o 2 with
                  | .ok r => Except.ok r
                  | .error e'' => scoreCandidateGo o 3 0 (some e'')) from rfl,
              show scoreCandidateGo o' 2 1 (some e') =
                (match o' 2 with
                  | .ok r => Except.ok r
                  | .error e'' => scoreCandidateGo o' 3 0 (some e'')) from rfl,
              h2]
            cases o' 2 with
            | ok r => rfl
            | error e'' => rfl
  · intro o e0 e1 e2 h0 h1 h2
    calc scoreCandidate o
        = scoreCandidateGo o 1 2 (some e0) := by
          show (match o 0 with
            | .ok r => Except.ok r
            | .error e => scoreCandidateGo o 1 2 (some e)) = _
          rw [h0]
      _ = scoreCandidateGo o 2 1 (some e1) := by
          show (match o 1 with
            | .ok r => Except.ok r
            | .error e => scoreCandidateGo o 2 1 (some e)) = _
          rw [h1]
      _ = scoreCandidateGo o 3 0 (some e2) := by
          show (match o 2 with
            | .ok r => Except.ok r
            | .error e => scoreCandidateGo o 3 0 (some e)) = _
          rw [h2]
      _ = .error e2 := rfl
  · intro fallback oracle candidates cIdx e hlen herr hok
    unfold rewardSelect
    rw [collectScores_error oracle candidates.length 0 cIdx e (by omega)
      (by omega) herr (fun j _ hj2 => hok j hj2)]

/-- C6 witness: the retry outcome ignores attempts past the third, three
failures propagate the last exception, and a failing candidate aborts the
whole selection. -/
theorem reward_retry_three_attempts_then_propagate_witness :
    scoreCandidate (fun _ => .error "boom") =
      scoreCandidate (fun a => if a < 3 then .error "boom"
        else .ok { reward := none, progressScore := none,
                   checklistItemScores := [], content := "", cost := 0 }) ∧
    scoreCandidate (fun a => if a = 2 then .error "last" else .error "first") =
      .error "last" ∧
    rewardSelect "first_candidate" (fun _ _ => .error "boom")
        [buildCandidateInfo (echoMsg "ls") 0] = .error "boom" := by
  refine ⟨?_, ?_, ?_⟩
  · refine reward_retry_three_attempts_then_propagate.1 _ _ ?_
    intro a ha
    rcases a with _ | _ | _ | a
    · rfl
    · rfl
    · rfl
    · omega
  · exact reward_retry_three_attempts_then_propagate.2.1 _ "first" "first" "last"
      rfl rfl rfl
  · refine reward_retry_three_attempts_then_propagate.2.2 "first_candidate"
      (fun _ _ => .error "boom") [buildCandidateInfo (echoMsg "ls") 0] 0 "boom"
      (by decide) (by decide) ?_
    intro j hj
    exact absurd hj (by omega)

/-! ## Claim C5 -/

lemma limitsBreached_of_nonpos (cfg : AgentCfg) (st : AgentState)
    (h : cfg.stepLimit ≤ 0 ∧ cfg.costLimit ≤ 0) :
    limitsBreached cfg st = false := by
  unfold limitsBreached
  have d1 : decide (0 < cfg.stepLimit) = false := by
    simp only [decide_eq_false_iff_not]
    omega
  have d2 : decide (0 < cfg.costLimit) = false := by
    simp only [decide_eq_false_iff_not]
    exact not_lt.mpr h.2
  rw [d1, d2]
  simp

lemma queryOnce_no_limits (cfg : AgentCfg) (M : ModelOracle) (st : AgentState)
    (m : Msg) (hnolim : cfg.stepLimit ≤ 0 ∧ cfg.costLimit ≤ 0)
    (hq : M.query none st.nCalls = .ok m) :
    queryOnce cfg M none st =
      (.ok m, { st with nCalls := st.nCalls + 1, cost := st.cost + m.extra.cost }) := by
  unfold queryOnce
  rw [limitsBreached_of_nonpos cfg st hnolim, hq]
  simp

lemma range_map_shift (f : ℕ → Msg) (n c : ℕ) :
    (List.range (n + 1)).map (fun k => f (c + k)) =
      f c :: (List.range n).map (fun k => f (c + 1 + k)) := by
  rw [List.range_succ_eq_map, List.map_cons, List.map_map]
  congr 1
  refine List.map_congr_left ?_
  intro k _
  simp only [Function.comp_apply]
  congr 1
  omega

lemma sampleLoop_no_limits (cfg : AgentCfg) (M : ModelOracle) (f : ℕ → Msg)
    (hnolim : cfg.stepLimit ≤ 0 ∧ cfg.costLimit ≤ 0)
    (hf : ∀ k, M.query none k = .ok (f k)) :
    ∀ (fuel : ℕ) (resp : List Msg) (st : AgentState),
      numC cfg ≤ resp.length + fuel →
      ∃ st' : AgentState,
        sampleLoop cfg M fuel resp st =
          (.ok (resp ++ (List.range (numC cfg - resp.length)).map
            (fun k => f (st.nCalls + k))), st') ∧
        st'.nCalls = st.nCalls + (numC cfg - resp.length) := by
  intro fuel
  induction fuel with
  | zero =>
      intro resp st hge
      refine ⟨st, ?_, by omega⟩
      have hz : numC cfg - resp.length = 0 := by omega
      rw [hz, List.range_zero, List.map_nil, List.append_nil]
      rfl
  | succ fuel ih =>
      intro resp st hge
      by_cases hlt : resp.length < numC cfg
      · have hq := queryOnce_no_limits cfg M st (f st.nCalls) hnolim (hf st.nCalls)
        obtain ⟨st', hloop, hn⟩ := ih (resp ++ [f st.nCalls])
          { st with nCalls := st.nCalls + 1,
                    cost := st.cost + (f st.nCalls).extra.cost }
          (by simp only [List.length_append, List.length_cons, List.length_nil]; omega)
        simp only [List.length_append, List.length_cons, List.length_nil] at hloop hn
        refine ⟨st', ?_, ?_⟩
        · unfold sampleLoop
          rw [if_pos hlt, hq]
          simp only
          rw [hloop]
          have hd : numC cfg - resp.length = (numC cfg - (resp.length + 1)) + 1 := by
            omega
          rw [hd, range_map_shift]
          simp only [Nat.zero_add, List.append_assoc, List.singleton_append]
        · rw [hn]
          omega
      · refine ⟨st, ?_, by omega⟩
        have hz : numC cfg - resp.length = 0 := by omega
        rw [hz, List.range_zero, List.map_nil, List.append_nil]
        unfold sampleLoop
        rw [if_neg hlt]

lemma splitNResponse_of_no_choices (P : ContentParse) (br : Msg) (n : ℕ)
    (h : br.extra.responseChoices = none) : splitNResponse P br n = [] := by
  unfold splitNResponse
  rw [h]

/-- C5: during batched multi-candidate sampling, an `InterruptAgentFlow`
from the model query propagates immediately and aborts sampling; a generic
exception instead triggers the fallback to independent queries; and a
batched response that cannot be split is wrapped as a single candidate and
topped up with independent queries until exactly `num_candidates`
responses exist. -/
theorem sampling_interrupt_propagates_and_fallback (cfg : AgentCfg)
    (M : ModelOracle) (P : ContentParse) (st : AgentState) (f : ℕ → Msg)
    (hnum : 2 ≤ numC cfg) (huseN : cfg.useN = true)
    (hnolim : cfg.stepLimit ≤ 0 ∧ cfg.costLimit ≤ 0) :
    (∀ e : AgentExc, M.query (some (numC cfg)) st.nCalls = .error e →
      e.isInterrupt = true →
      sampleCandidates cfg M P st =
        (.error e, { st with nCalls := st.nCalls + 1 })) ∧
    ((∀ k, M.query none k = .ok (f k)) →
      (∀ e : AgentExc, M.query (some (numC cfg)) st.nCalls = .error e →
        e.isInterrupt = false →
        ∃ st' : AgentState,
          sampleCandidates cfg M P st =
            (.ok ((List.range (numC cfg)).map (fun k => f (st.nCalls + 1 + k)),
              ((List.range (numC cfg)).map (fun k => f (st.nCalls + 1 + k))).mapIdx
                (fun i m => buildCandidateInfo m i)), st') ∧
          st'.nCalls = st.nCalls + 1 + numC cfg) ∧
      (∀ br : Msg, M.query (some (numC cfg)) st.nCalls = .ok br →
        br.extra.responseChoices = none →
        ∃ st' : AgentState,
          sampleCandidates cfg M P st =
            (.ok (br :: (List.range (numC cfg - 1)).map
                (fun k => f (st.nCalls + 1 + k)),
              (br :: (List.range (numC cfg - 1)).map
                (fun k => f (st.nCalls + 1 + k))).mapIdx
                (fun i m => buildCandidateInfo m i)), st') ∧
          st'.nCalls = st.nCalls + numC cfg)) := by
  have hne1 : ¬numC cfg = 1 := by omega
  constructor
  · intro e he hi
    have hq : queryOnce cfg M (some (numC cfg)) st =
        (.error e, { st with nCalls := st.nCalls + 1 }) := by
      unfold queryOnce
      rw [limitsBreached_of_nonpos cfg st hnolim, he]
      simp
    unfold sampleCandidates sampleResponses
    rw [if_neg hne1, huseN, if_pos rfl, hq]
    simp [hi]
  · intro hf
    constructor
    · intro e he hi
      have hq : queryOnce cfg M (some (numC cfg)) st =
          (.error e, { st with nCalls := st.nCalls + 1 }) := by
        unfold queryOnce
        rw [limitsBreached_of_nonpos cfg st hnolim, he]
        simp
      obtain ⟨st', hloop, hn⟩ := sampleLoop_no_limits cfg M f hnolim hf
        (numC cfg) [] { st with nCalls := st.nCalls + 1 } (by simp)
      simp only [List.nil_append, List.length_nil, Nat.sub_zero] at hloop hn
      refine ⟨st', ?_, by rw [hn]⟩
      unfold sampleCandidates sampleResponses
      rw [if_neg hne1, huseN, if_pos rfl, hq]
      simp only [hi, Bool.false_eq_true, if_false]
      rw [hloop]
    · intro br hbr hsplit
      have hq : queryOnce cfg M (some (numC cfg)) st =
          (.ok br, { st with nCalls := st.nCalls + 1,
                             cost := st.cost + br.extra.cost }) := by
        unfold queryOnce
        rw [limitsBreached_of_nonpos cfg st hnolim, hbr]
        simp
      obtain ⟨st', hloop, hn⟩ := sampleLoop_no_limits cfg M f hnolim hf
        (numC cfg) [br]
        { st with nCalls := st.nCalls + 1, cost := st.cost + br.extra.cost }
        (by simp only [List.length_cons, List.length_nil]; omega)
      simp only [List.length_cons, List.length_nil] at hloop hn
      refine ⟨st', ?_, by rw [hn]; omega⟩
      unfold sampleCandidates sampleResponses
      rw [if_neg hne1, huseN, if_pos rfl, hq]
      simp only [splitNResponse_of_no_choices P br (numC cfg) hsplit,
        List.isEmpty_nil, if_true]
      rw [hloop]
      simp

/-- C5 witness: with two batched candidates requested, an interrupt from
the batched call aborts sampling after one call; a generic exception falls
back to two independent queries; an unsplittable batched response is
wrapped and topped up to two candidates. -/
theorem sampling_interrupt_propagates_and_fallback_witness :
    sampleCandidates batchCfg
        (batchFailModel (.limitsExceeded limitsExitMsg) (echoMsg "a")) noParse {} =
      (.error (.limitsExceeded limitsExitMsg), { nCalls := 1 }) ∧
    (∃ st' : AgentState,
      sampleCandidates batchCfg
          (batchFailModel (.generic "RuntimeError" "boom") (echoMsg "a")) noParse {} =
        (.ok ((List.range (numC batchCfg)).map (fun _ => echoMsg "a"),
          ((List.range (numC batchCfg)).map (fun _ => echoMsg "a")).mapIdx
            (fun i m => buildCandidateInfo m i)), st') ∧
      st'.nCalls = 0 + 1 + numC batchCfg) ∧
    (∃ st' : AgentState,
      sampleCandidates batchCfg
          (batchOkModel (echoMsg "b") (echoMsg "a")) noParse {} =
        (.ok (echoMsg "b" :: (List.range (numC batchCfg - 1)).map
            (fun _ => echoMsg "a"),
          (echoMsg "b" :: (List.range (numC batchCfg - 1)).map
            (fun _ => echoMsg "a")).mapIdx (fun i m => buildCandidateInfo m i)), st') ∧
      st'.nCalls = 0 + numC batchCfg) := by
  refine ⟨?_, ?_, ?_⟩
  · exact (sampling_interrupt_propagates_and_fallback batchCfg
      (batchFailModel (.limitsExceeded limitsExitMsg) (echoMsg "a")) noParse {}
      (fun _ => echoMsg "a") (by decide) rfl
      ⟨by decide, by with_unfolding_all decide⟩).1
      (.limitsExceeded limitsExitMsg) rfl rfl
  · exact ((sampling_interrupt_propagates_and_fallback batchCfg
      (batchFailModel (.generic "RuntimeError" "boom") (echoMsg "a")) noParse {}
      (fun _ => echoMsg "a") (by decide) rfl
      ⟨by decide, by with_unfolding_all decide⟩).2
      (fun _ => rfl)).1 (.generic "RuntimeError" "boom") rfl rfl
  · exact ((sampling_interrupt_propagates_and_fallback batchCfg
      (batchOkModel (echoMsg "b") (echoMsg "a")) noParse {}
      (fun _ => echoMsg "a") (by decide) rfl
      ⟨by decide, by with_unfolding_all decide⟩).2
      (fun _ => rfl)).2 (echoMsg "b") rfl rfl

/-! ## Claim C9 -/

set_option maxHeartbeats 2000000 in
lemma joinLines_splitLinesAux :
    ∀ (cs acc : List Char), joinLines (splitLinesAux cs acc) = acc.reverse ++ cs := by
  intro cs acc
  induction cs, acc using splitLinesAux.induct with
  | case1 acc h => simp [splitLinesAux.eq_1, joinLines, List.isEmpty_iff.mp h]
  | case2 acc h =>
      have hne : acc ≠ [] := by simpa [List.isEmpty_iff] using h
      simp [splitLinesAux.eq_1, joinLines, hne]
  | case3 rest acc ih =>
      simp only [joinLines] at ih ⊢
      simp [splitLinesAux.eq_2, ih]
  | case4 c rest acc hg hbr ih =>
      simp only [joinLines] at ih ⊢
      rw [splitLinesAux.eq_3 acc c rest hg, if_pos hbr]
      simp [ih]
  | case5 c rest acc hg hbr ih =>
      simp only [joinLines] at ih ⊢
      rw [splitLinesAux.eq_3 acc c rest hg, if_neg hbr]
      simp [ih]

lemma lstripChars_cons_not_space (c : Char) (h : pySpace c = false) (l : List Char) :
    lstripChars (c :: l) = c :: l := by
  simp [lstripChars, List.dropWhile_cons, h]

set_option maxHeartbeats 2000000 in
lemma splitLinesAux_prefix_newline (l : List Char)
    (hl : ∀ c ∈ l, pyLineBreak c = false) :
    ∀ (rest acc : List Char),
      splitLinesAux (l ++ '\n' :: rest) acc =
        (acc.reverse ++ l ++ ['\n']) :: splitLinesAux rest [] := by
  induction l with
  | nil =>
      intro rest acc
      rw [List.nil_append,
        splitLinesAux.eq_3 acc '\n' rest (fun r h1 _ => by exact absurd h1 (by decide)),
        if_pos (by decide)]
      simp
  | cons c l ih =>
      intro rest acc
      have hc : pyLineBreak c = false := hl c (by simp)
      have hcr : c ≠ '\x0d' := by
        intro hcc
        rw [hcc] at hc
        exact absurd hc (by decide)
      rw [List.cons_append,
        splitLinesAux.eq_3 acc c (l ++ '\n' :: rest) (fun r h1 _ => hcr h1),
        if_neg (by simp [hc]),
        ih (fun d hd => hl d (by simp [hd])) rest (c :: acc)]
      simp

set_option maxHeartbeats 2000000 in
lemma checkFinished_prefix (c : Char) (l : List Char) (rest : String)
    (hsp : pySpace c = false)
    (hnb : ∀ d ∈ c :: l, pyLineBreak d = false)
    (hstrip : stripChars ((c :: l) ++ ['\n']) = completionMarker.toList) :
    checkFinished (String.mk ((c :: l) ++ '\n' :: rest.toList)) 0 =
      some (submittedMsg rest) := by
  have hlines : splitLinesKeepends
      (lstripChars (String.mk ((c :: l) ++ '\n' :: rest.toList)).toList) =
      ((c :: l) ++ ['\n']) :: splitLinesAux rest.toList [] := by
    show splitLinesKeepends (lstripChars ((c :: l) ++ '\n' :: rest.toList)) = _
    rw [show ((c :: l) ++ '\n' :: rest.toList) = c :: (l ++ '\n' :: rest.toList)
        from rfl,
      lstripChars_cons_not_space c hsp]
    show splitLinesAux ((c :: l) ++ '\n' :: rest.toList) [] = _
    rw [splitLinesAux_prefix_newline (c :: l) hnb rest.toList []]
    simp
  unfold checkFinished
  rw [hlines]
  show (if stripChars ((c :: l) ++ ['\n']) = completionMarker.toList ∧ (0 : ℤ) = 0
      then some (submittedMsg (String.mk (joinLines (splitLinesAux rest.toList []))))
      else none) = some (submittedMsg rest)
  rw [if_pos ⟨hstrip, rfl⟩,
    show joinLines (splitLinesAux rest.toList []) = rest.toList from by
      simpa using joinLines_splitLinesAux rest.toList []]
  rcases rest with ⟨data⟩
  rfl

/-- C9: output whose first line is exactly the completion marker with
return code 0 raises `Submitted` with an exit message carrying
`exit_status = "Submitted"` and the output after the marker line as the
submission; in the two-command scenario the run loop appends that exit
message as the final message and returns its extra dict, with the
submission text `"done\n"`, two model calls, and an intermediate
observation containing the first command's output. -/
theorem submit_marker_and_run_result :
    (∀ rest : String,
      checkFinished (completionMarker ++ "\n" ++ rest) 0 = some (submittedMsg rest) ∧
      (submittedMsg rest).extra.exitStatus = some "Submitted" ∧
      (submittedMsg rest).extra.submission = some rest) ∧
    (match scenarioRun with
      | .done ex _ => some ex
      | _ => none) =
      some { exitStatus := some "Submitted", submission := some "done\n" } ∧
    (match scenarioRun with
      | .done _ stF => stF.nCalls
      | _ => 0) = 2 ∧
    (match scenarioRun with
      | .done _ stF => stF.messages.map (·.role)
      | _ => []) = ["system", "user", "assistant", "user", "assistant", "exit"] ∧
    (match scenarioRun with
      | .done _ stF => (stF.messages.getD 3 {}).content
      | _ => "") = "hello\n" ∧
    (match scenarioRun with
      | .done _ stF => stF.messages.getLast?
      | _ => none) = some (submittedMsg "done\n") := by
  refine ⟨?_, ?_, ?_, ?_, ?_, ?_⟩
  · intro rest
    refine ⟨?_, rfl, rfl⟩
    rw [show completionMarker ++ "\n" ++ rest =
        String.mk (('C' :: "OMPLETE_TASK_AND_SUBMIT_FINAL_OUTPUT".toList) ++
          '\n' :: rest.toList) from by cases rest; rfl]
    exact checkFinished_prefix 'C' "OMPLETE_TASK_AND_SUBMIT_FINAL_OUTPUT".toList
      rest (by decide) (by decide) (by decide)
  · with_unfolding_all decide
  · with_unfolding_all decide
  · with_unfolding_all decide
  · with_unfolding_all decide
  · with_unfolding_all decide

end MiniSwe
